import Mathlib

/-!
# Verification of the Notion sync script (sync-to-notion.js)

Shallow embedding of the reconciliation engine of the repository: a one-way
sync of locally parsed feature files into two remote Notion databases.

The embedding mirrors the source file function by function:

* string/regex helpers: JavaScript whitespace (`\s`), `String.prototype.trim`,
  `String.prototype.split` with a one-character separator, and the concrete
  regular expressions of `parseSubtasks` / the status-folder scan, translated
  with their exact backtracking semantics;
* `featureStatusOfPath` — the folder-to-status scan of `parseFeatureFile`
  (source lines 120-130);
* `parseSubtasks` (source lines 174-210);
* the mapping file store `loadMapping` / `saveMapping` (source lines 55-78),
  with the platform pair `JSON.stringify` / `JSON.parse` modelled as the
  identity on a JSON syntax tree (`Json`), which is exact for the acyclic
  string/null data the script persists;
* the reconciler: `syncFeature` (338-474), `syncProject` (479-554),
  `cleanupDeletedFeatures` (559-583) and the driver `syncToNotion` (610-696),
  with the remote Notion API modelled as a deterministic world of pages plus a
  fault predicate `Flt` that says which remote calls fail spuriously
  (`fun c => false` is the fault-free remote).

Remote calls are recorded in a trace so that statements about which calls a
run issues ("no mutation call", "exactly one archive call") are literal
statements about the trace.
-/

namespace NotionSync

/-! ## JavaScript string primitives -/

/-- Whitespace class of JavaScript regular expressions (`\s`) and of
`String.prototype.trim`: tab, LF, VT, FF, CR, space, NBSP, BOM, the Unicode
space separators, and the line separators U+2028/U+2029. -/
def isJsWs (c : Char) : Bool :=
  let n := c.toNat
  n = 9 || n = 10 || n = 11 || n = 12 || n = 13 || n = 32 || n = 0xa0 ||
  n = 0x1680 || (0x2000 ≤ n && n ≤ 0x200a) || n = 0x2028 || n = 0x2029 ||
  n = 0x202f || n = 0x205f || n = 0x3000 || n = 0xfeff

/-- Line terminators of JavaScript (`\n`, `\r`, U+2028, U+2029): the
characters the regex metacharacter `.` does not match. -/
def isLineTerm (c : Char) : Bool :=
  let n := c.toNat
  n = 10 || n = 13 || n = 0x2028 || n = 0x2029

/-- What the JavaScript regex `.` matches (no `s` flag): anything but a line
terminator. -/
def dotOk (c : Char) : Bool := !isLineTerm c

/-- The JavaScript digit class `\d` (exactly the ASCII digits 0-9). -/
def isDigitC (c : Char) : Bool := '0' ≤ c && c ≤ '9'

/-- JavaScript `String.prototype.trim`: strip `isJsWs` characters from both
ends. -/
def jsTrim (s : String) : String :=
  String.mk (((s.data.dropWhile isJsWs).reverse.dropWhile isJsWs).reverse)

/-- Character-level split, the semantics of JavaScript
`String.prototype.split` with a one-character separator string. -/
def splitC (sep : Char) : List Char → List (List Char)
  | [] => [[]]
  | c :: rest =>
    if c = sep then [] :: splitC sep rest
    else
      match splitC sep rest with
      | [] => [[c]]
      | p :: ps => (c :: p) :: ps

/-- JavaScript `s.split(sep)` for a one-character separator. -/
def splitStr (sep : Char) (s : String) : List String :=
  (splitC sep s.data).map String.mk

/-! ## Folder-to-status mapping (source lines 34-39 and 120-130) -/

/-- CONFIG.statusFolders, in object-key insertion order (source lines 34-39).
`parseFeatureFile` iterates the keys in exactly this order. -/
def statusFolders : List (String × String) :=
  [("backlog", "Backlog"), ("planned", "Planned"),
   ("in-progress", "In Progress"), ("completed", "Completed")]

/-- Status assignment of `parseFeatureFile` (source lines 120-130): split the
file path on `path.sep` (`"/"`), take the value of the first `statusFolders`
key (in insertion order) contained in the path parts, defaulting to
`"Backlog"`. -/
def featureStatusOfPath (filePath : String) : String :=
  let pathParts := splitStr '/' filePath
  match statusFolders.find? (fun kv => pathParts.contains kv.1) with
  | some kv => kv.2
  | none => "Backlog"

/-! ## The three regexes of `parseSubtasks` (source lines 181, 188, 199)

Each matcher returns the capture groups of the JavaScript regex, with the
exact backtracking semantics of the greedy quantifiers, or `none` when the
regex does not match the line.  Lines come from `content.split('\n')`, so a
line never contains `'\n'`, but it can contain `'\r'` (CRLF content), which
`.` does not match; the `dotOk` side conditions encode that. -/

/-- Matcher for the tail `\s+(.+)$` of the phase and checkbox regexes,
applied to the characters following the previous token.  The maximal
whitespace run is tried first; if nothing is left for `(.+)`, the engine
gives back one whitespace character. -/
def seqWsCapture (cs : List Char) : Option (List Char) :=
  let w := cs.takeWhile isJsWs
  let r := cs.dropWhile isJsWs
  if w = [] then none
  else if r ≠ [] then
    if r.all dotOk then some r else none
  else
    match w.getLast? with
    | some l => if w.length ≥ 2 && dotOk l then some [l] else none
    | none => none

/-- Matcher for the tail `\s+(?!\[)(.+)$` of the numbered-task regex: like
`seqWsCapture`, but when the first character after the whitespace run is
`'['` the engine backtracks the `\s+` by one character, so the capture then
starts with that whitespace character. -/
def seqWsNoBracketCapture (cs : List Char) : Option (List Char) :=
  let w := cs.takeWhile isJsWs
  let r := cs.dropWhile isJsWs
  if w = [] then none
  else
    match r with
    | [] =>
      match w.getLast? with
      | some l => if w.length ≥ 2 && dotOk l then some [l] else none
      | none => none
    | rc :: _ =>
      if rc = '[' then
        match w.getLast? with
        | some l =>
          if w.length ≥ 2 && dotOk l && r.all dotOk then some (l :: r) else none
        | none => none
      else if r.all dotOk then some r else none

/-- Phase-header regex `^###\s+(.+)$` (source line 181).  Returns the capture
(still untrimmed). -/
def matchPhase (line : String) : Option String :=
  match line.data with
  | '#' :: '#' :: '#' :: rest => (seqWsCapture rest).map String.mk
  | _ => none

/-- Core of the checkbox regex after the optional numbering prefix:
`\[([x ])\]\s+(.+)$` with the `i` flag, so the bracket may hold `x`, `X` or a
space.  Returns the bracket character and the text capture. -/
def checkboxCore (cs : List Char) : Option (Char × String) :=
  match cs with
  | '[' :: c :: ']' :: rest =>
    if c = 'x' || c = 'X' || c = ' ' then
      (seqWsCapture rest).map (fun cap => (c, String.mk cap))
    else none
  | _ => none

/-- Checkbox regex `^\s*(?:\d+\.\s*)?\[([x ])\]\s+(.+)$` with the `i` flag
(source line 188).  The optional `\d+\.\s*` prefix is taken when the first
non-blank character is a digit; if the digits are not followed by a dot the
alternative without the group also fails (it would need `[` where a digit
stands), so the whole match fails. -/
def matchCheckbox (line : String) : Option (Char × String) :=
  let cs := line.data.dropWhile isJsWs
  match cs with
  | [] => none
  | c :: _ =>
    if isDigitC c then
      match cs.dropWhile isDigitC with
      | '.' :: rest2 => checkboxCore (rest2.dropWhile isJsWs)
      | _ => none
    else checkboxCore cs

/-- Numbered-task regex `^\s*(\d+)\.\s+(?!\[)(.+)$` (source line 199).
Returns the text capture (group 2, the only group the source reads). -/
def matchNumbered (line : String) : Option String :=
  let cs := line.data.dropWhile isJsWs
  match cs with
  | [] => none
  | c :: _ =>
    if isDigitC c then
      match cs.dropWhile isDigitC with
      | '.' :: rest2 => (seqWsNoBracketCapture rest2).map String.mk
      | _ => none
    else none

/-! ## `parseSubtasks` (source lines 174-210) -/

/-- One parsed subtask: text, completion flag and the phase heading it sits
under. -/
structure Subtask where
  text : String
  completed : Bool
  phase : Option String
deriving DecidableEq, Repr

/-- Line loop of `parseSubtasks`: phase headers update `currentPhase`,
checkbox lines and numbered lines emit subtasks, anything else is skipped.
Matches are tried in the source's order (phase, checkbox, numbered), each
followed by `continue`. -/
def parseSubtasksGo (currentPhase : Option String) : List String → List Subtask
  | [] => []
  | line :: rest =>
    match matchPhase line with
    | some cap => parseSubtasksGo (some (jsTrim cap)) rest
    | none =>
      match matchCheckbox line with
      | some (c, cap) =>
        ⟨jsTrim cap, c = 'x' || c = 'X', currentPhase⟩ :: parseSubtasksGo currentPhase rest
      | none =>
        match matchNumbered line with
        | some cap => ⟨jsTrim cap, false, currentPhase⟩ :: parseSubtasksGo currentPhase rest
        | none => parseSubtasksGo currentPhase rest

/-- `parseSubtasks` on an already-split list of lines. -/
def parseSubtasksLines (lines : List String) : List Subtask :=
  parseSubtasksGo none lines

/-- `parseSubtasks` (source lines 174-210): split the section content on
newlines and run the line loop with no current phase. -/
def parseSubtasks (content : String) : List Subtask :=
  parseSubtasksLines (splitStr '\n' content)

/-- The `currentPhase` value of the loop after consuming `lines`, starting
from `cur`. -/
def phaseAfter (cur : Option String) (lines : List String) : Option String :=
  lines.foldl
    (fun acc l => match matchPhase l with | some cap => some (jsTrim cap) | none => acc) cur

/-- The most recent `###` heading among `lines` (trimmed), if any: the first
phase match when scanning from the bottom. -/
def phaseAbove (lines : List String) : Option String :=
  (lines.reverse.findSome? matchPhase).map jsTrim

/-! ## Association lists: the key-indexed tables of the mapping object

JavaScript objects used as maps have unique string keys in insertion order;
property read, property write and `delete` translate to the three helpers
below. -/

/-- Property read `obj[k]` (`undefined` becomes `none`). -/
def alookup {α : Type} (l : List (String × α)) (k : String) : Option α :=
  (l.find? (fun kv => kv.1 = k)).map (fun kv => kv.2)

/-- Property write `obj[k] = v`: replaces the value in place when the key
exists (keeping its position), appends otherwise. -/
def aset {α : Type} : List (String × α) → String → α → List (String × α)
  | [], k, v => [(k, v)]
  | kv :: rest, k, v => if kv.1 = k then (k, v) :: rest else kv :: aset rest k v

/-- Property removal `delete obj[k]`. -/
def aerase {α : Type} (l : List (String × α)) (k : String) : List (String × α) :=
  l.filter (fun kv => kv.1 ≠ k)

/-- Erasing a list of keys in order (what the cleanup sweep does to each
table). -/
def eraseKeys {α : Type} (l : List (String × α)) (ks : List String) : List (String × α) :=
  ks.foldl aerase l

/-! ## The sync state (mapping file) and its persisted JSON form -/

/-- The in-memory sync state object (source lines 60-65): the project's
remote page id, the last-sync timestamp, and the two key-indexed tables
`filePath -> Notion page id` and `filePath -> content hash`. -/
structure Mapping where
  projectPageId : Option String
  lastSync : Option String
  featurePageIds : List (String × String)
  contentHashes : List (String × String)
deriving DecidableEq, Repr

/-- The fresh empty state `loadMapping` builds when the file is missing or
unparseable (source lines 60-65). -/
def emptyMapping : Mapping := ⟨none, none, [], []⟩

/-- JSON syntax tree.  `JSON.parse` of the text `JSON.stringify` produced
returns a structurally identical value for the acyclic null/string data the
script persists, so the platform serialization round-trip is modelled as the
identity on this type and the store is analysed at the level of the JSON
values written and parsed. -/
inductive Json where
  | null
  | bool (b : Bool)
  | num (n : Int)
  | str (s : String)
  | arr (elems : List Json)
  | obj (fields : List (String × Json))

/-- JSON form of a nullable string field. -/
def jsonOfOptStr : Option String → Json
  | some s => .str s
  | none => .null

/-- JSON form of one of the two key-indexed tables. -/
def jsonOfTable (t : List (String × String)) : Json :=
  .obj (t.map (fun kv => (kv.1, Json.str kv.2)))

/-- The JSON value `saveMapping` serializes (the object layout of source
lines 60-65, which is also the layout `JSON.stringify(mapping, null, 2)`
writes). -/
def jsonOfMapping (m : Mapping) : Json :=
  .obj [("projectPageId", jsonOfOptStr m.projectPageId),
        ("lastSync", jsonOfOptStr m.lastSync),
        ("featurePageIds", jsonOfTable m.featurePageIds),
        ("contentHashes", jsonOfTable m.contentHashes)]

/-- Object property lookup on a parsed JSON object. -/
def jlookup (fields : List (String × Json)) (k : String) : Option Json :=
  (fields.find? (fun kv => kv.1 = k)).map (fun kv => kv.2)

/-- Reading a nullable string field back. -/
def optStrOfJson : Json → Option (Option String)
  | .null => some none
  | .str s => some (some s)
  | _ => none

/-- Reading the entries of a string-to-string table back: every value must be
a string. -/
def tableEntries : List (String × Json) → Option (List (String × String))
  | [] => some []
  | (k, Json.str v) :: rest => (tableEntries rest).map (fun t => (k, v) :: t)
  | _ => none

/-- Reading a string-to-string table back: every value must be a string. -/
def tableOfJson : Json → Option (List (String × String))
  | .obj fields => tableEntries fields
  | _ => none

/-- Interpreting a parsed JSON value as a sync state: the field accesses the
rest of the script performs on the loaded object, succeeding exactly when the
value has the persisted shape. -/
def mappingOfJson (j : Json) : Option Mapping :=
  match j with
  | .obj fields => do
    let pj ← jlookup fields "projectPageId"
    let pp ← optStrOfJson pj
    let lj ← jlookup fields "lastSync"
    let ls ← optStrOfJson lj
    let fj ← jlookup fields "featurePageIds"
    let fp ← tableOfJson fj
    let cj ← jlookup fields "contentHashes"
    let ch ← tableOfJson cj
    some ⟨pp, ls, fp, ch⟩
  | _ => none

/-- `loadMapping` (source lines 55-67).  The argument is the outcome of
`fs.readFile` + `JSON.parse`: `none` when the file is missing or its content
is not parseable JSON (both throw, landing in the catch block, which returns
the fresh empty state); `some j` when the content parses to the JSON value
`j`, which the function returns as is, with no shape validation. -/
def loadMapping : Option Json → Json
  | none => jsonOfMapping emptyMapping
  | some j => j

/-- `saveMapping` (source lines 72-78): the JSON value whose pretty-printed
text fully overwrites the mapping file. -/
def saveMapping (m : Mapping) : Json := jsonOfMapping m

/-! ## Parsed feature records -/

/-- The record `parseFeatureFile` produces (source lines 107-169).  Only
records with a resolvable title are synced, so `title` is a plain string. -/
structure Feature where
  title : String
  priority : Option String
  complexity : Option String
  estimatedSessions : Option String
  description : Option String
  subtasks : List Subtask
  status : String
  filePath : String
  hash : String
deriving DecidableEq, Repr

/-! ## Rendered page content (children blocks)

Only the block structure is kept (which blocks, with which text); the Notion
rich-text envelopes are presentation. -/

/-- A content block of a feature or project page. -/
inductive Block where
  | paragraph (text : String)
  | divider
  | heading2 (text : String)
  | heading3 (text : String)
  | todo (text : String) (checked : Bool)
deriving DecidableEq, Repr

/-- Chunking of the description by the regex `/.{1,1900}/gs` (source line
386): successive chunks of at most 1900 characters. -/
def chunkAux : List Char → List Char → Nat → List (List Char)
  | [], cur, _ => [cur.reverse]
  | c :: rest, cur, k =>
    match k with
    | 0 => cur.reverse :: chunkAux rest [c] 1899
    | k + 1 => chunkAux rest (c :: cur) k

/-- All 1900-character chunks of a description (empty input gives no chunks,
matching `match` returning `null` and the `|| []` fallback). -/
def chunks1900 (cs : List Char) : List (List Char) :=
  match cs with
  | [] => []
  | c :: rest => chunkAux rest [c] 1899

/-- `createSubtaskBlocks` loop (source lines 304-333): a `heading_3` whenever
the phase label changes to a non-empty one, then a `to_do` per task. -/
def createSubtaskBlocksGo (currentPhase : Option String) : List Subtask → List Block
  | [] => []
  | t :: ts =>
    match t.phase with
    | some p =>
      if p ≠ "" ∧ some p ≠ currentPhase then
        .heading3 p :: .todo t.text t.completed :: createSubtaskBlocksGo (some p) ts
      else .todo t.text t.completed :: createSubtaskBlocksGo currentPhase ts
    | none => .todo t.text t.completed :: createSubtaskBlocksGo currentPhase ts

/-- `createSubtaskBlocks` (source lines 304-333). -/
def createSubtaskBlocks (subtasks : List Subtask) : List Block :=
  createSubtaskBlocksGo none subtasks

/-- The children array `syncFeature` renders for a record (source lines
381-423): description paragraphs, then a divider, a `📋 Subtasks` heading and
the subtask blocks when there are subtasks, then a divider and the source
file reference. -/
def buildChildren (f : Feature) : List Block :=
  (match f.description with
   | some d => if d ≠ "" then (chunks1900 d.data).map (fun c => Block.paragraph (String.mk c)) else []
   | none => []) ++
  (if f.subtasks ≠ [] then
     Block.divider :: Block.heading2 "📋 Subtasks" :: createSubtaskBlocks f.subtasks
   else []) ++
  [Block.divider, Block.paragraph ("📁 Source: " ++ f.filePath)]

/-! ## The remote world and its call interface

The Notion client is modelled as a deterministic store of pages plus a fault
predicate `Flt` saying which calls fail spuriously (network/stale-id
errors).  Every call is recorded in a trace.  A call also fails for its
genuine remote reason (missing page; property update or append on an
archived page).  `pages.retrieve` succeeds for archived pages — Notion
returns trashed pages with their `archived` flag set — and database queries
return live pages only. -/

abbrev PageId := String

/-- CONFIG.featuresDbId (opaque, environment-supplied). -/
def featuresDb : String := "features-db"

/-- CONFIG.projectsDbId (opaque, environment-supplied). -/
def projectsDb : String := "projects-db"

/-- One remote API call, as recorded in the trace. -/
inductive Call where
  | retrieve (pageId : PageId)
  | updatePage (pageId : PageId)
  | archivePage (pageId : PageId)
  | listChildren (pageId : PageId)
  | deleteBlock (blockId : Nat)
  | appendChildren (pageId : PageId) (count : Nat)
  | createPage (db : String) (name : String) (childCount : Nat)
  | queryProjectsByName (name : String)
  | queryFeaturesByTitle (title : String) (projectId : PageId)
deriving DecidableEq, Repr

/-- Remote state of one page. -/
structure PageData where
  db : String
  name : String
  relatedProject : Option PageId
  archived : Bool
  blocks : List Nat
deriving DecidableEq, Repr

/-- The remote store: pages keyed by id, plus counters minting fresh page
and block ids. -/
structure World where
  pages : List (PageId × PageData)
  nextPageId : Nat
  nextBlockId : Nat
deriving DecidableEq, Repr

/-- State threaded through a run: the remote world and the call trace. -/
structure St where
  world : World
  trace : List Call
deriving DecidableEq, Repr

/-- Fault schedule: which calls fail spuriously. -/
abbrev Flt := Call → Bool

/-- The fault-free remote. -/
def noFaults : Flt := fun _ => false

/-- Fresh page ids minted by the remote on create.  Real Notion ids are
opaque UUIDs that never collide; the model's ids are determined by a counter
and `freshPageId` is injective. -/
def freshPageId (n : Nat) : PageId := String.mk (List.replicate (n + 1) 'p')

/-- Page lookup by id. -/
def getPage (w : World) (pid : PageId) : Option PageData := alookup w.pages pid

/-- Does a page with this id exist (archived or not)? -/
def pageExists (w : World) (pid : PageId) : Bool := (getPage w pid).isSome

/-- Does a page with this id exist and is it not archived? -/
def pageLive (w : World) (pid : PageId) : Bool :=
  match getPage w pid with
  | some pg => !pg.archived
  | none => false

/-- Record a call in the trace. -/
def emit (s : St) (c : Call) : St := {s with trace := s.trace ++ [c]}

/-- `notion.pages.retrieve` (existence probe): succeeds iff the page exists
(archived pages are returned too) and no fault strikes. -/
def opRetrieve (flt : Flt) (pid : PageId) (s : St) : Bool × St :=
  let s1 := emit s (.retrieve pid)
  (pageExists s1.world pid && !flt (.retrieve pid), s1)

/-- `notion.pages.update` with properties: patches the page name (and, when
`rel = some r`, its project relation); fails on a missing or archived page or
on a fault. -/
def opUpdatePage (flt : Flt) (pid : PageId) (name : String) (rel : Option (Option PageId))
    (s : St) : Bool × St :=
  let s1 := emit s (.updatePage pid)
  match getPage s1.world pid with
  | some pg =>
    if pg.archived || flt (.updatePage pid) then (false, s1)
    else
      let pg2 := {pg with name := name,
                          relatedProject := match rel with | some r => r | none => pg.relatedProject}
      (true, {s1 with world := {s1.world with pages := aset s1.world.pages pid pg2}})
  | none => (false, s1)

/-- `notion.pages.update` with `archived: true` (soft delete): marks the page
archived; fails on a missing page or on a fault. -/
def opArchivePage (flt : Flt) (pid : PageId) (s : St) : Bool × St :=
  let s1 := emit s (.archivePage pid)
  match getPage s1.world pid with
  | some pg =>
    if flt (.archivePage pid) then (false, s1)
    else (true, {s1 with world := {s1.world with pages := aset s1.world.pages pid {pg with archived := true}}})
  | none => (false, s1)

/-- `notion.blocks.children.list`: the page's block ids, or `none` on a
missing page or fault (the JavaScript call throws). -/
def opListChildren (flt : Flt) (pid : PageId) (s : St) : Option (List Nat) × St :=
  let s1 := emit s (.listChildren pid)
  match getPage s1.world pid with
  | some pg => (if flt (.listChildren pid) then none else some pg.blocks, s1)
  | none => (none, s1)

/-- `notion.blocks.delete`: removes the block if no fault strikes; the source
ignores the result (inner try with an empty catch, line 439-443). -/
def opDeleteBlock (flt : Flt) (bid : Nat) (s : St) : St :=
  let s1 := emit s (.deleteBlock bid)
  if flt (.deleteBlock bid) then s1
  else
    {s1 with world := {s1.world with
      pages := s1.world.pages.map (fun kv => (kv.1, {kv.2 with blocks := kv.2.blocks.filter (fun b => b ≠ bid)}))}}

/-- `notion.blocks.children.append`: appends `n` fresh blocks; fails on a
missing or archived page or on a fault. -/
def opAppendChildren (flt : Flt) (pid : PageId) (n : Nat) (s : St) : Bool × St :=
  let s1 := emit s (.appendChildren pid n)
  match getPage s1.world pid with
  | some pg =>
    if pg.archived || flt (.appendChildren pid n) then (false, s1)
    else
      let pg2 := {pg with blocks := pg.blocks ++ List.range' s1.world.nextBlockId n}
      (true, {s1 with world := {s1.world with
        pages := aset s1.world.pages pid pg2,
        nextBlockId := s1.world.nextBlockId + n}})
  | none => (false, s1)

/-- `notion.pages.create`: mints a fresh page with `n` fresh child blocks
under the given database, or fails on a fault (the JavaScript call throws). -/
def opCreatePage (flt : Flt) (db : String) (name : String) (rel : Option PageId) (n : Nat)
    (s : St) : Option PageId × St :=
  let s1 := emit s (.createPage db name n)
  if flt (.createPage db name n) then (none, s1)
  else
    let pid := freshPageId s1.world.nextPageId
    let pg : PageData := ⟨db, name, rel, false, List.range' s1.world.nextBlockId n⟩
    (some pid, {s1 with world := {s1.world with
      pages := aset s1.world.pages pid pg,
      nextPageId := s1.world.nextPageId + 1,
      nextBlockId := s1.world.nextBlockId + n}})

/-- `findProjectPage` (source lines 262-277): query the Projects database by
exact name; a query error is caught and becomes `null`.  Queries return live
(non-trashed) pages. -/
def findProjectPage (flt : Flt) (projectName : String) (s : St) : Option PageId × St :=
  let s1 := emit s (.queryProjectsByName projectName)
  if flt (.queryProjectsByName projectName) then (none, s1)
  else
    ((s1.world.pages.find? (fun kv =>
        kv.2.db = projectsDb && kv.2.name = projectName && !kv.2.archived)).map (fun kv => kv.1), s1)

/-- `findFeaturePage` (source lines 282-299): query the Features database by
exact title and project relation; a query error is caught and becomes
`null`.  Note: this function is defined by the source but never called. -/
def findFeaturePage (flt : Flt) (featureTitle : String) (projectPageId : PageId)
    (s : St) : Option PageId × St :=
  let s1 := emit s (.queryFeaturesByTitle featureTitle projectPageId)
  if flt (.queryFeaturesByTitle featureTitle projectPageId) then (none, s1)
  else
    ((s1.world.pages.find? (fun kv =>
        kv.2.db = featuresDb && kv.2.name = featureTitle &&
        kv.2.relatedProject = some projectPageId && !kv.2.archived)).map (fun kv => kv.1), s1)

/-! ## `syncFeature` (source lines 338-474) -/

/-- The `{ pageId, action }` result of `syncFeature` / `syncProject`. -/
structure SyncOutcome where
  pageId : PageId
  action : String
deriving DecidableEq, Repr

/-- Create branch of `syncFeature` (source lines 462-471): a thrown create
error propagates to the caller (`none`). -/
def syncFeatureCreate (flt : Flt) (f : Feature) (ppid : PageId) (s : St) :
    Option SyncOutcome × St :=
  match opCreatePage flt featuresDb f.title (some ppid) (buildChildren f).length s with
  | (some pid, s1) => (some ⟨pid, "created"⟩, s1)
  | (none, s1) => (none, s1)

/-- Update-then-create part of `syncFeature` (source lines 428-471): with a
truthy remembered id, patch properties, list and delete the old content
blocks (delete failures ignored), append the new content; any failure in
update/list/append is caught and falls back to creating a new page. -/
def syncFeatureUpdateOrCreate (flt : Flt) (f : Feature) (ppid : PageId)
    (existingPageId : Option PageId) (s : St) : Option SyncOutcome × St :=
  match existingPageId with
  | some pid =>
    if pid ≠ "" then
      match opUpdatePage flt pid f.title (some (some ppid)) s with
      | (true, s1) =>
        match opListChildren flt pid s1 with
        | (some bids, s2) =>
          let s3 := bids.foldl (fun s b => opDeleteBlock flt b s) s2
          if (buildChildren f).length > 0 then
            match opAppendChildren flt pid (buildChildren f).length s3 with
            | (true, s4) => (some ⟨pid, "updated"⟩, s4)
            | (false, s4) => syncFeatureCreate flt f ppid s4
          else (some ⟨pid, "updated"⟩, s3)
        | (none, s2) => syncFeatureCreate flt f ppid s2
      | (false, s1) => syncFeatureCreate flt f ppid s1
    else syncFeatureCreate flt f ppid s
  | none => syncFeatureCreate flt f ppid s

/-- `syncFeature` (source lines 338-474).  Fast path: with a truthy
remembered id and a matching stored hash, probe the page with
`pages.retrieve`; on success the action is `unchanged` with no further
calls.  On probe failure the remembered id is kept (the catch block only
falls through) and the update-then-create part runs with it.  `none` models
an exception thrown to the caller (only a failed create throws). -/
def syncFeature (flt : Flt) (f : Feature) (projectPageId : PageId) (m : Mapping)
    (s : St) : Option SyncOutcome × St :=
  let existingPageId := alookup m.featurePageIds f.filePath
  let existingHash := alookup m.contentHashes f.filePath
  match existingPageId with
  | some pid =>
    if pid ≠ "" ∧ existingHash = some f.hash then
      match opRetrieve flt pid s with
      | (true, s1) => (some ⟨pid, "unchanged"⟩, s1)
      | (false, s1) => syncFeatureUpdateOrCreate flt f projectPageId (some pid) s1
    else syncFeatureUpdateOrCreate flt f projectPageId (some pid) s
  | none => syncFeatureUpdateOrCreate flt f projectPageId none s

/-! ## `syncProject` (source lines 479-554) -/

/-- Create branch of `syncProject` (source lines 513-553): the page children
are a README callout when a README exists, a divider and the instructions
callout. -/
def syncProjectCreate (flt : Flt) (projectName : String) (readme : Option String)
    (s : St) : Option (PageId × String) × St :=
  let n := (match readme with | some r => if r ≠ "" then 1 else 0 | none => 0) + 2
  match opCreatePage flt projectsDb projectName none n s with
  | (some pid, s1) => (some (pid, "created"), s1)
  | (none, s1) => (none, s1)

/-- Step 1 of `syncProject` (source lines 483-489): verify the remembered
project page id with a retrieve, dropping it on failure; a falsy remembered
id (`""` or absent) skips the probe. -/
def syncProjectStep1 (flt : Flt) (m : Mapping) (s : St) : Option PageId × St :=
  match m.projectPageId with
  | some p =>
    if p ≠ "" then
      match opRetrieve flt p s with
      | (true, s1) => (some p, s1)
      | (false, s1) => (none, s1)
    else (some p, s)
  | none => (none, s)

/-- Step 2 of `syncProject` (source lines 492-494): search by name when no
truthy id survived step 1. -/
def syncProjectStep2 (flt : Flt) (projectName : String) (r : Option PageId × St) :
    Option PageId × St :=
  match r with
  | (some p, s) => if p ≠ "" then (some p, s) else findProjectPage flt projectName s
  | (none, s) => findProjectPage flt projectName s

/-- `syncProject` (source lines 479-554): verify the remembered project page
id with a retrieve (dropping it on failure), fall back to a name search,
then update the existing page or create a new one.  A thrown update or
create error propagates (`none`). -/
def syncProject (flt : Flt) (projectName : String) (readme : Option String)
    (m : Mapping) (s : St) : Option (PageId × String) × St :=
  match syncProjectStep2 flt projectName (syncProjectStep1 flt m s) with
  | (some p, s1) =>
    if p ≠ "" then
      match opUpdatePage flt p projectName none s1 with
      | (true, s2) => (some (p, "updated"), s2)
      | (false, s2) => (none, s2)
    else syncProjectCreate flt projectName readme s1
  | (none, s1) => syncProjectCreate flt projectName readme s1

/-! ## `cleanupDeletedFeatures` (source lines 559-583) -/

/-- Loop of `cleanupDeletedFeatures` over the snapshot of the
`featurePageIds` entries (`Object.entries` evaluates once): for every entry
whose path is no longer scanned, issue one archive call and remove the entry
from both tables whether or not the call succeeded; only successful archives
are counted. -/
def cleanupGo (flt : Flt) (currentPaths : List String) :
    List (String × PageId) → Mapping → St → Nat → Nat × Mapping × St
  | [], m, s, archived => (archived, m, s)
  | (fp, pid) :: rest, m, s, archived =>
    if currentPaths.contains fp then cleanupGo flt currentPaths rest m s archived
    else
      let r := opArchivePage flt pid s
      let m2 := {m with featurePageIds := aerase m.featurePageIds fp,
                        contentHashes := aerase m.contentHashes fp}
      cleanupGo flt currentPaths rest m2 r.2 (if r.1 then archived + 1 else archived)

/-- `cleanupDeletedFeatures` (source lines 559-583).  The unused
`projectPageId` parameter of the source is omitted. -/
def cleanupDeletedFeatures (flt : Flt) (currentFeatures : List Feature) (m : Mapping)
    (s : St) : Nat × Mapping × St :=
  cleanupGo flt (currentFeatures.map (fun f => f.filePath)) m.featurePageIds m s 0

/-! ## The driver `syncToNotion` (source lines 610-696)

Everything inside the top-level try block after configuration validation:
load mapping, sync the project, sync every feature, clean up vanished
features, stamp `lastSync` and save.  Any exception escaping a step lands in
the catch block, which logs and calls `process.exit(1)` — nothing further
runs and the mapping file is not written.  `saved = none` models that
aborted exit; `saved = some m` models `saveMapping(m)` being reached. -/

/-- Outcome of the per-feature loop (source lines 644-661). -/
structure LoopRes where
  ok : Bool
  m : Mapping
  created : Nat
  updated : Nat
  unchanged : Nat
  actions : List (String × String)
  st : St
deriving DecidableEq, Repr

/-- The per-feature loop: on a thrown `syncFeature` error the loop stops
(the exception propagates); on success the two tables are written and the
`created` / `updated` / `unchanged` counter bumped. -/
def runFeatures (flt : Flt) (ppid : PageId) :
    List Feature → Mapping → Nat → Nat → Nat → List (String × String) → St → LoopRes
  | [], m, c, u, n, acts, s => ⟨true, m, c, u, n, acts, s⟩
  | f :: fs, m, c, u, n, acts, s =>
    match syncFeature flt f ppid m s with
    | (none, s1) => ⟨false, m, c, u, n, acts, s1⟩
    | (some r, s1) =>
      let m2 := {m with featurePageIds := aset m.featurePageIds f.filePath r.pageId,
                        contentHashes := aset m.contentHashes f.filePath f.hash}
      let cun : Nat × Nat × Nat :=
        if r.action = "created" then (c + 1, u, n)
        else if r.action = "updated" then (c, u + 1, n)
        else (c, u, n + 1)
      runFeatures flt ppid fs m2 cun.1 cun.2.1 cun.2.2 (acts ++ [(f.filePath, r.action)]) s1

/-- Result of one full run. -/
structure RunResult where
  saved : Option Mapping
  created : Nat
  updated : Nat
  unchanged : Nat
  actions : List (String × String)
  archived : Nat
  st : St
deriving DecidableEq, Repr

/-- One full run of `syncToNotion` after configuration validation (source
lines 610-696): `m0` is the loaded mapping, `ts` the `new Date()` timestamp
stamped into `lastSync`.  The project page id is written into the mapping
before the feature loop (line 639); `saved` is the mapping passed to
`saveMapping`, or `none` when the run aborted in the catch block. -/
def runSync (flt : Flt) (projectName : String) (readme : Option String) (ts : String)
    (features : List Feature) (m0 : Mapping) (s : St) : RunResult :=
  match syncProject flt projectName readme m0 s with
  | (none, s1) => ⟨none, 0, 0, 0, [], 0, s1⟩
  | (some (ppid, _act), s1) =>
    let m1 := {m0 with projectPageId := some ppid}
    let L := runFeatures flt ppid features m1 0 0 0 [] s1
    if L.ok then
      let cr := cleanupDeletedFeatures flt features L.m L.st
      let m3 := {cr.2.1 with lastSync := some ts}
      ⟨some m3, L.created, L.updated, L.unchanged, L.actions, cr.1, cr.2.2⟩
    else ⟨none, L.created, L.updated, L.unchanged, L.actions, 0, L.st⟩

/-! ## Fixtures and small predicates used by the statements below -/

/-- Is a call the never-issued feature search (`findFeaturePage` query)? -/
def isFeatureQuery : Call → Bool
  | .queryFeaturesByTitle _ _ => true
  | _ => false

/-- Fault schedule under which every page-create call fails and everything
else succeeds. -/
def createFaults : Flt := fun c =>
  match c with
  | .createPage _ _ _ => true
  | _ => false

/-- Fault schedule under which every existence probe fails and everything
else succeeds. -/
def retrieveFaults : Flt := fun c =>
  match c with
  | .retrieve _ => true
  | _ => false

/-- Fault schedule under which every property update fails and everything
else succeeds. -/
def updateFaults : Flt := fun c =>
  match c with
  | .updatePage _ => true
  | _ => false

/-- A minimal parsed record: no optional attributes, no description, no
subtasks. -/
def sampleFeature (t fp h : String) : Feature :=
  ⟨t, none, none, none, none, [], "Backlog", fp, h⟩

/-- A prior sync state remembering only the project page `P`. -/
def mProj : Mapping := ⟨some "P", none, [], []⟩

/-- A small remote world used by the concrete counterexamples: a live
project page `P`, a live feature page `F1` titled `Export` related to `P`,
and a live feature page `pg` titled `T` related to `P`. -/
def cexWorld : World :=
  ⟨[("P", ⟨projectsDb, "proj", none, false, []⟩),
    ("F1", ⟨featuresDb, "Export", some "P", false, []⟩),
    ("pg", ⟨featuresDb, "T", some "P", false, []⟩)], 0, 0⟩

/-! ## Helper lemmas: association lists -/

theorem alookup_nil {α : Type} (k : String) : alookup ([] : List (String × α)) k = none := rfl

theorem alookup_cons {α : Type} (kv : String × α) (rest : List (String × α)) (k : String) :
    alookup (kv :: rest) k = if kv.1 = k then some kv.2 else alookup rest k := by
  by_cases h : kv.1 = k <;> simp [alookup, List.find?_cons, h]

theorem aset_nil {α : Type} (k : String) (v : α) : aset ([] : List (String × α)) k v = [(k, v)] := rfl

theorem aset_cons {α : Type} (kv : String × α) (rest : List (String × α)) (k : String) (v : α) :
    aset (kv :: rest) k v = if kv.1 = k then (k, v) :: rest else kv :: aset rest k v := rfl

theorem alookup_aset_self {α : Type} (l : List (String × α)) (k : String) (v : α) :
    alookup (aset l k v) k = some v := by
  induction l with
  | nil => simp [aset_nil, alookup_cons]
  | cons kv rest ih =>
    by_cases h : kv.1 = k
    · simp [aset_cons, h, alookup_cons]
    · simp [aset_cons, h, alookup_cons, ih]

theorem alookup_aset_other {α : Type} (l : List (String × α)) (k k' : String) (v : α)
    (h : k' ≠ k) : alookup (aset l k v) k' = alookup l k' := by
  have hne : ¬k = k' := fun hh => h hh.symm
  induction l with
  | nil => simp [aset_nil, alookup_cons, alookup_nil, hne]
  | cons kv rest ih =>
    by_cases hk : kv.1 = k
    · rw [aset_cons, if_pos hk, alookup_cons, alookup_cons, if_neg hne, hk, if_neg hne]
    · rw [aset_cons, if_neg hk, alookup_cons, alookup_cons, ih]

theorem aset_of_lookup_eq {α : Type} (l : List (String × α)) (k : String) (v : α)
    (h : alookup l k = some v) : aset l k v = l := by
  induction l with
  | nil => simp [alookup_nil] at h
  | cons kv rest ih =>
    by_cases hk : kv.1 = k
    · rw [alookup_cons, if_pos hk] at h
      have hv : kv.2 = v := Option.some.inj h
      rw [aset_cons, if_pos hk, ← hk, ← hv]
    · rw [alookup_cons, if_neg hk] at h
      rw [aset_cons, if_neg hk, ih h]

theorem mem_aset {α : Type} (l : List (String × α)) (k : String) (v : α) (e : String × α)
    (h : e ∈ aset l k v) : e = (k, v) ∨ e ∈ l := by
  induction l with
  | nil => simpa [aset_nil] using h
  | cons kv rest ih =>
    by_cases hk : kv.1 = k
    · simp [aset_cons, hk] at h
      rcases h with h | h
      · exact Or.inl (by simp [h])
      · exact Or.inr (List.mem_cons_of_mem _ h)
    · simp [aset_cons, hk] at h
      rcases h with h | h
      · exact Or.inr (by simp [h])
      · rcases ih h with h' | h'
        · exact Or.inl h'
        · exact Or.inr (List.mem_cons_of_mem _ h')

theorem alookup_filter_keep {α : Type} (l : List (String × α)) (p : String → Bool)
    (k : String) (hk : p k = true) :
    alookup (l.filter (fun e => p e.1)) k = alookup l k := by
  induction l with
  | nil => rfl
  | cons kv rest ih =>
    by_cases hk' : kv.1 = k
    · subst hk'
      simp [List.filter_cons, hk, alookup_cons]
    · by_cases hp : p kv.1
      · simp [List.filter_cons, hp, alookup_cons, hk', ih]
      · simp [List.filter_cons, hp, alookup_cons, hk', ih]

/-- String-list `contains` agrees with membership. -/
theorem contains_iff_memS {l : List String} {s : String} : l.contains s = true ↔ s ∈ l := by
  simp [List.contains_iff_exists_mem_beq]

/-! ## Status assignment: helper and claims C6 / C9 -/

/-- The folder scan is the first-match chain over the fixed key order
backlog, planned, in-progress, completed. -/
theorem featureStatus_chain (fp : String) :
    featureStatusOfPath fp =
      (if "backlog" ∈ splitStr '/' fp then "Backlog"
       else if "planned" ∈ splitStr '/' fp then "Planned"
       else if "in-progress" ∈ splitStr '/' fp then "In Progress"
       else if "completed" ∈ splitStr '/' fp then "Completed"
       else "Backlog") := by
  unfold featureStatusOfPath
  by_cases h1 : "backlog" ∈ splitStr '/' fp <;>
    by_cases h2 : "planned" ∈ splitStr '/' fp <;>
      by_cases h3 : "in-progress" ∈ splitStr '/' fp <;>
        by_cases h4 : "completed" ∈ splitStr '/' fp <;>
  simp [statusFolders, List.find?, h1, h2, h3, h4, List.contains_iff_exists_mem_beq]

/-- C6: the status assigned by `parseFeatureFile` always comes from the
closed set Backlog / Planned / In Progress / Completed; a file whose path
components contain the folder `planned` (and no `backlog` component, which
the scan order would prefer — see the companion statement about C9) gets
`Planned`; a path with no recognized status folder gets the default
`Backlog`. -/
theorem status_from_folder_closed_set (fp : String) :
    (featureStatusOfPath fp = "Backlog" ∨ featureStatusOfPath fp = "Planned" ∨
     featureStatusOfPath fp = "In Progress" ∨ featureStatusOfPath fp = "Completed") ∧
    ("planned" ∈ splitStr '/' fp → "backlog" ∉ splitStr '/' fp →
      featureStatusOfPath fp = "Planned") ∧
    ("backlog" ∉ splitStr '/' fp → "planned" ∉ splitStr '/' fp →
      "in-progress" ∉ splitStr '/' fp → "completed" ∉ splitStr '/' fp →
      featureStatusOfPath fp = "Backlog") := by
  refine ⟨?_, ?_, ?_⟩
  · rw [featureStatus_chain]
    split_ifs <;> simp
  · intro hp hb
    rw [featureStatus_chain]
    simp [hp, hb]
  · intro h1 h2 h3 h4
    rw [featureStatus_chain]
    simp [h1, h2, h3, h4]

/-- Witness for C6 at concrete paths. -/
theorem status_from_folder_closed_set_witness :
    featureStatusOfPath "roadmap/planned/auth.md" = "Planned" ∧
    featureStatusOfPath "roadmap/misc/auth.md" = "Backlog" :=
  ⟨(status_from_folder_closed_set "roadmap/planned/auth.md").2.1 (by decide) (by decide),
   (status_from_folder_closed_set "roadmap/misc/auth.md").2.2
     (by decide) (by decide) (by decide) (by decide)⟩

/-- C9: with several recognized status folders among the path components,
the status is decided by the fixed key iteration order backlog, planned,
in-progress, completed — not by which folder is nearest the file; in
particular `roadmap/completed/backlog/x.md` is assigned `Backlog`. -/
theorem status_first_key_in_iteration_order (fp : String) :
    featureStatusOfPath fp =
      (if "backlog" ∈ splitStr '/' fp then "Backlog"
       else if "planned" ∈ splitStr '/' fp then "Planned"
       else if "in-progress" ∈ splitStr '/' fp then "In Progress"
       else if "completed" ∈ splitStr '/' fp then "Completed"
       else "Backlog") ∧
    featureStatusOfPath "roadmap/completed/backlog/x.md" = "Backlog" :=
  ⟨featureStatus_chain fp, by decide⟩

/-! ## Mapping store: helper lemmas and claims C7 / C8 -/

theorem tableEntries_jsonOfTable (t : List (String × String)) :
    tableEntries (t.map (fun kv => (kv.1, Json.str kv.2))) = some t := by
  induction t with
  | nil => rfl
  | cons kv rest ih =>
    obtain ⟨k, v⟩ := kv
    simp [tableEntries, ih]

theorem tableOfJson_jsonOfTable (t : List (String × String)) :
    tableOfJson (jsonOfTable t) = some t := by
  simp [tableOfJson, jsonOfTable, tableEntries_jsonOfTable]

theorem optStrOfJson_jsonOfOptStr (o : Option String) :
    optStrOfJson (jsonOfOptStr o) = some o := by
  cases o <;> rfl

/-- C7: saving a sync state and loading it back yields a value that reads
back as exactly the saved state — in particular the `featurePageIds` and
`contentHashes` tables are identical to the saved ones. -/
theorem mapping_roundtrip (m : Mapping) :
    mappingOfJson (loadMapping (some (saveMapping m))) = some m := by
  cases m with
  | mk pp ls fp ch =>
    simp [loadMapping, saveMapping, jsonOfMapping, mappingOfJson, jlookup, List.find?,
      optStrOfJson_jsonOfOptStr, tableOfJson_jsonOfTable]

/-- C8 counterexample: the file content `null` is valid JSON, so
`JSON.parse` does not throw and `loadMapping` returns the parsed value
`null` as is — not a sync state, and not the fresh empty state the claim
requires for every content. -/
theorem loadMapping_nonobject_counterexample :
    loadMapping (some Json.null) = Json.null ∧
    mappingOfJson (loadMapping (some Json.null)) = none ∧
    loadMapping (some Json.null) ≠ jsonOfMapping emptyMapping := by
  refine ⟨rfl, rfl, ?_⟩
  intro h
  exact Json.noConfusion h

/-- C8 as amended: `loadMapping` never throws; a missing or unparseable file
yields the fresh empty initial state; any parseable content is returned as
the parsed JSON value with no shape validation, so the result is a sync
state exactly when the file held one. -/
theorem loadMapping_fails_soft :
    loadMapping none = jsonOfMapping emptyMapping ∧
    (∀ j : Json, loadMapping (some j) = j) ∧
    (∀ (j : Json) (m : Mapping), mappingOfJson j = some m →
      mappingOfJson (loadMapping (some j)) = some m) :=
  ⟨rfl, fun _ => rfl, fun _ _ h => h⟩

/-- Witness for C8 (amended) at the serialized empty state. -/
theorem loadMapping_fails_soft_witness :
    mappingOfJson (loadMapping (some (jsonOfMapping emptyMapping))) = some emptyMapping :=
  loadMapping_fails_soft.2.2 (jsonOfMapping emptyMapping) emptyMapping (by rfl)

/-! ## Fold of `aerase` over a list of keys -/

theorem eraseKeys_eq_filter {α : Type} (ks : List String) :
    ∀ l : List (String × α), eraseKeys l ks = l.filter (fun e => !ks.contains e.1) := by
  induction ks with
  | nil => intro l; simp [eraseKeys]
  | cons k ks ih =>
    intro l
    have h1 : eraseKeys l (k :: ks) = eraseKeys (aerase l k) ks := rfl
    rw [h1, ih, aerase, List.filter_filter]
    refine List.filter_congr ?_
    intro e _
    by_cases hk : e.1 = k <;> by_cases hks : ks.contains e.1 <;>
      simp [hk, hks, List.contains_cons]

/-! ## Trace and world lemmas for the remote call interface -/

theorem emit_world (s : St) (c : Call) : (emit s c).world = s.world := rfl

theorem opRetrieve_state (flt : Flt) (pid : PageId) (s : St) :
    (opRetrieve flt pid s).2 = emit s (.retrieve pid) := rfl

theorem opArchivePage_trace (flt : Flt) (pid : PageId) (s : St) :
    (opArchivePage flt pid s).2.trace = s.trace ++ [Call.archivePage pid] := by
  simp only [opArchivePage, emit]
  split
  · split <;> rfl
  · rfl

theorem opArchivePage_world_exists (flt : Flt) (pid : PageId) (s : St) (x : PageId)
    (h : pageExists s.world x = true) :
    pageExists (opArchivePage flt pid s).2.world x = true := by
  simp only [opArchivePage, emit]
  split
  · split
    · exact h
    · by_cases hx : x = pid
      · subst hx
        simp [pageExists, getPage, alookup_aset_self]
      · simpa [pageExists, getPage, alookup_aset_other _ _ _ _ hx] using h
  · exact h

theorem opArchivePage_world_other (flt : Flt) (pid : PageId) (s : St) (x : PageId)
    (h : x ≠ pid) :
    getPage (opArchivePage flt pid s).2.world x = getPage s.world x := by
  simp only [opArchivePage, emit]
  split
  · split
    · rfl
    · simpa [getPage] using alookup_aset_other s.world.pages pid x _ h
  · rfl

/-! ## Cleanup sweep: claim C3 -/

/-- Full characterization of the cleanup loop: the trace gains exactly one
archive call per stale snapshot entry (against that entry's remembered id),
and each stale key is erased from both tables, whether or not the archive
call succeeded; the other two mapping fields are untouched. -/
theorem cleanupGo_spec (flt : Flt) (cps : List String) :
    ∀ (entries : List (String × PageId)) (m : Mapping) (s : St) (a : Nat),
      (cleanupGo flt cps entries m s a).2.2.trace =
        s.trace ++ (entries.filter (fun e => !cps.contains e.1)).map
          (fun e => Call.archivePage e.2) ∧
      (cleanupGo flt cps entries m s a).2.1.featurePageIds =
        eraseKeys m.featurePageIds
          ((entries.filter (fun e => !cps.contains e.1)).map (fun e => e.1)) ∧
      (cleanupGo flt cps entries m s a).2.1.contentHashes =
        eraseKeys m.contentHashes
          ((entries.filter (fun e => !cps.contains e.1)).map (fun e => e.1)) ∧
      (cleanupGo flt cps entries m s a).2.1.projectPageId = m.projectPageId ∧
      (cleanupGo flt cps entries m s a).2.1.lastSync = m.lastSync := by
  intro entries
  induction entries with
  | nil => intro m s a; simp [cleanupGo, eraseKeys]
  | cons e rest ih =>
    intro m s a
    obtain ⟨fp, pid⟩ := e
    have hstep : cleanupGo flt cps ((fp, pid) :: rest) m s a =
        if cps.contains fp = true then cleanupGo flt cps rest m s a
        else cleanupGo flt cps rest
          {m with featurePageIds := aerase m.featurePageIds fp,
                  contentHashes := aerase m.contentHashes fp}
          (opArchivePage flt pid s).2
          (if (opArchivePage flt pid s).1 = true then a + 1 else a) := rfl
    by_cases hc : cps.contains fp = true
    · rw [hstep, if_pos hc]
      have hfil : List.filter (fun e => !cps.contains e.1) ((fp, pid) :: rest) =
          List.filter (fun e => !cps.contains e.1) rest := by
        rw [List.filter_cons]
        simp only [hc, Bool.not_true]
        rfl
      rw [hfil]
      exact ih m s a
    · have hc2 : cps.contains fp = false := by
        cases hb : cps.contains fp
        · rfl
        · exact absurd hb hc
      rw [hstep, if_neg hc]
      have hfil : List.filter (fun e => !cps.contains e.1) ((fp, pid) :: rest) =
          (fp, pid) :: List.filter (fun e => !cps.contains e.1) rest := by
        rw [List.filter_cons]
        simp only [hc2, Bool.not_false]
        rfl
      rw [hfil]
      obtain ⟨t1, t2, t3, t4, t5⟩ := ih
        {m with featurePageIds := aerase m.featurePageIds fp,
                contentHashes := aerase m.contentHashes fp}
        (opArchivePage flt pid s).2
        (if (opArchivePage flt pid s).1 = true then a + 1 else a)
      refine ⟨?_, ?_, ?_, ?_, ?_⟩
      · rw [t1, opArchivePage_trace, List.map_cons, List.append_assoc]
        rfl
      · rw [t2, List.map_cons]
        rfl
      · rw [t3, List.map_cons]
        rfl
      · exact t4
      · exact t5

/-- C3: for every key in the prior `featurePageIds` table that is absent
from the scanned paths, the cleanup sweep issues exactly one archive call
against that key's remembered page id (the trace gains precisely the list of
those calls, in table order), and removes the key from both the
`featurePageIds` and `contentHashes` tables whether the archive call
succeeded or failed (the fault schedule `flt` is universally quantified);
keys still scanned are kept untouched. -/
theorem cleanup_archives_and_removes_stale_keys (flt : Flt) (features : List Feature)
    (m : Mapping) (s : St) :
    (cleanupDeletedFeatures flt features m s).2.2.trace =
      s.trace ++ (m.featurePageIds.filter
        (fun e => !(features.map (fun f => f.filePath)).contains e.1)).map
        (fun e => Call.archivePage e.2) ∧
    (cleanupDeletedFeatures flt features m s).2.1.featurePageIds =
      m.featurePageIds.filter (fun e => (features.map (fun f => f.filePath)).contains e.1) ∧
    (cleanupDeletedFeatures flt features m s).2.1.contentHashes =
      m.contentHashes.filter (fun e =>
        (features.map (fun f => f.filePath)).contains e.1 ||
        !(m.featurePageIds.map (fun x => x.1)).contains e.1) ∧
    (cleanupDeletedFeatures flt features m s).2.1.projectPageId = m.projectPageId ∧
    (cleanupDeletedFeatures flt features m s).2.1.lastSync = m.lastSync := by
  have hdef : cleanupDeletedFeatures flt features m s =
      cleanupGo flt (features.map (fun f => f.filePath)) m.featurePageIds m s 0 := rfl
  rw [hdef]
  obtain ⟨t1, t2, t3, t4, t5⟩ :=
    cleanupGo_spec flt (features.map (fun f => f.filePath)) m.featurePageIds m s 0
  have memStale : ∀ (l : List (String × PageId)) (k : String),
      k ∈ (l.filter (fun x => !(features.map (fun f => f.filePath)).contains x.1)).map
        (fun x => x.1) ↔
      ∃ x ∈ l, x.1 = k ∧ (features.map (fun f => f.filePath)).contains k = false := by
    intro l k
    constructor
    · intro h
      rcases List.mem_map.mp h with ⟨x, hx, hk⟩
      rcases List.mem_filter.mp hx with ⟨hxl, hxc⟩
      refine ⟨x, hxl, hk, ?_⟩
      rw [← hk]
      revert hxc
      cases (features.map (fun f => f.filePath)).contains x.1 <;> simp
    · rintro ⟨x, hxl, hk, hkc⟩
      refine List.mem_map.mpr ⟨x, List.mem_filter.mpr ⟨hxl, ?_⟩, hk⟩
      rw [hk, hkc]
      rfl
  have notStale : ∀ (l : List (String × PageId)) (k : String),
      (features.map (fun f => f.filePath)).contains k = true →
      ((l.filter (fun x => !(features.map (fun f => f.filePath)).contains x.1)).map
        (fun x => x.1)).contains k = false := by
    intro l k hc
    cases hb : ((l.filter (fun x => !(features.map (fun f => f.filePath)).contains x.1)).map
        (fun x => x.1)).contains k
    · rfl
    · rcases (memStale l k).mp (contains_iff_memS.mp hb) with ⟨x, _, _, hkc⟩
      rw [hc] at hkc
      exact Bool.noConfusion hkc
  refine ⟨t1, ?_, ?_, t4, t5⟩
  · rw [t2, eraseKeys_eq_filter]
    refine List.filter_congr ?_
    intro e he
    by_cases hc : (features.map (fun f => f.filePath)).contains e.1 = true
    · rw [hc, notStale m.featurePageIds e.1 hc]
      rfl
    · have hc2 : (features.map (fun f => f.filePath)).contains e.1 = false := by
        cases hb : (features.map (fun f => f.filePath)).contains e.1
        · rfl
        · exact absurd hb hc
      rw [hc2]
      have : e.1 ∈ (m.featurePageIds.filter
          (fun x => !(features.map (fun f => f.filePath)).contains x.1)).map (fun x => x.1) :=
        (memStale m.featurePageIds e.1).mpr ⟨e, he, rfl, hc2⟩
      rw [contains_iff_memS.mpr this]
      rfl
  · rw [t3, eraseKeys_eq_filter]
    refine List.filter_congr ?_
    intro e _
    by_cases hc : (features.map (fun f => f.filePath)).contains e.1 = true
    · rw [hc, notStale m.featurePageIds e.1 hc]
      rfl
    · have hc2 : (features.map (fun f => f.filePath)).contains e.1 = false := by
        cases hb : (features.map (fun f => f.filePath)).contains e.1
        · rfl
        · exact absurd hb hc
      rw [hc2]
      by_cases hk : (m.featurePageIds.map (fun x => x.1)).contains e.1 = true
      · rcases List.mem_map.mp (contains_iff_memS.mp hk) with ⟨x, hxl, hkey⟩
        have : e.1 ∈ (m.featurePageIds.filter
            (fun x => !(features.map (fun f => f.filePath)).contains x.1)).map (fun x => x.1) :=
          (memStale m.featurePageIds e.1).mpr ⟨x, hxl, hkey, hc2⟩
        rw [contains_iff_memS.mpr this, hk]
        rfl
      · have hk2 : (m.featurePageIds.map (fun x => x.1)).contains e.1 = false := by
          cases hb : (m.featurePageIds.map (fun x => x.1)).contains e.1
          · rfl
          · exact absurd hb hk
        rw [hk2]
        cases hb : ((m.featurePageIds.filter
            (fun x => !(features.map (fun f => f.filePath)).contains x.1)).map
            (fun x => x.1)).contains e.1
        · rfl
        · rcases (memStale m.featurePageIds e.1).mp (contains_iff_memS.mp hb) with ⟨x, hxl, hkey, _⟩
          have : e.1 ∈ m.featurePageIds.map (fun x => x.1) := List.mem_map.mpr ⟨x, hxl, hkey⟩
          rw [contains_iff_memS.mpr this] at hk2
          exact Bool.noConfusion hk2

/-! ## Subtask parsing: helpers and claim C10 -/

theorem parseSubtasksGo_cons (cur : Option String) (l : String) (rest : List String) :
    parseSubtasksGo cur (l :: rest) =
      match matchPhase l with
      | some cap => parseSubtasksGo (some (jsTrim cap)) rest
      | none =>
        match matchCheckbox l with
        | some (c, cap) =>
          ⟨jsTrim cap, c = 'x' || c = 'X', cur⟩ :: parseSubtasksGo cur rest
        | none =>
          match matchNumbered l with
          | some cap => ⟨jsTrim cap, false, cur⟩ :: parseSubtasksGo cur rest
          | none => parseSubtasksGo cur rest := rfl

theorem phaseAfter_cons (cur : Option String) (l : String) (rest : List String) :
    phaseAfter cur (l :: rest) =
      phaseAfter (match matchPhase l with | some cap => some (jsTrim cap) | none => cur) rest := rfl

/-- Splitting the loop at any point: the tail is parsed with the phase
accumulated over the prefix. -/
theorem parseSubtasksGo_append (xs ys : List String) :
    ∀ cur, parseSubtasksGo cur (xs ++ ys) =
      parseSubtasksGo cur xs ++ parseSubtasksGo (phaseAfter cur xs) ys := by
  induction xs with
  | nil => intro cur; rfl
  | cons l xs ih =>
    intro cur
    rw [List.cons_append, parseSubtasksGo_cons, parseSubtasksGo_cons, phaseAfter_cons]
    cases hp : matchPhase l
    · cases hc : matchCheckbox l
      · cases hn : matchNumbered l
        · simpa using ih cur
        · simpa using ih cur
      · simpa using ih cur
    · simpa using ih _

theorem phaseAfter_findSome (lines : List String) :
    ∀ cur, phaseAfter cur lines =
      match lines.reverse.findSome? matchPhase with
      | some c => some (jsTrim c)
      | none => cur := by
  induction lines with
  | nil => intro cur; rfl
  | cons l ls ih =>
    intro cur
    rw [phaseAfter_cons, ih, List.reverse_cons, List.findSome?_append]
    cases hf : ls.reverse.findSome? matchPhase
    · cases hp : matchPhase l <;> simp [List.findSome?, hp, Option.orElse]
    · simp [Option.orElse]

/-- The loop phase accumulated over a prefix is the most recent heading in
that prefix. -/
theorem phaseAfter_none_eq_phaseAbove (lines : List String) :
    phaseAfter none lines = phaseAbove lines := by
  rw [phaseAfter_findSome]
  cases hf : lines.reverse.findSome? matchPhase <;> simp [phaseAbove, hf]

/-- C10: inside a Subtasks section, a numbered line with no checkbox
(matched by the numbered-task regex, tried after the phase and checkbox
regexes) contributes a subtask with `completed = false` whose phase is the
most recent `###` heading above it; a checkbox line contributes a subtask
that is completed exactly when the bracket holds `x` or `X` (the space
bracket gives `false`). -/
theorem subtasks_numbered_and_checkbox (pre : List String) (line : String) (post : List String) :
    (∀ cap, matchPhase line = none → matchCheckbox line = none →
      matchNumbered line = some cap →
      parseSubtasksLines (pre ++ line :: post) =
        parseSubtasksLines pre ++
          ⟨jsTrim cap, false, phaseAbove pre⟩ :: parseSubtasksGo (phaseAbove pre) post) ∧
    (∀ c cap, matchPhase line = none → matchCheckbox line = some (c, cap) →
      parseSubtasksLines (pre ++ line :: post) =
        parseSubtasksLines pre ++
          ⟨jsTrim cap, c = 'x' || c = 'X', phaseAbove pre⟩ ::
            parseSubtasksGo (phaseAbove pre) post) := by
  constructor
  · intro cap hp hc hn
    show parseSubtasksGo none (pre ++ line :: post) = _
    rw [parseSubtasksGo_append, phaseAfter_none_eq_phaseAbove, parseSubtasksGo_cons, hp, hc, hn]
    rfl
  · intro c cap hp hc
    show parseSubtasksGo none (pre ++ line :: post) = _
    rw [parseSubtasksGo_append, phaseAfter_none_eq_phaseAbove, parseSubtasksGo_cons, hp, hc]
    rfl

/-- Witness for C10: a numbered line under a heading, and a checked checkbox
line with an upper-case X. -/
theorem subtasks_numbered_and_checkbox_witness :
    parseSubtasksLines ["### Phase A", "2. write tests"] =
      [⟨"write tests", false, some "Phase A"⟩] ∧
    parseSubtasksLines ["### Phase A", "1. [X] ship it"] =
      [⟨"ship it", true, some "Phase A"⟩] := by
  constructor
  · exact Eq.trans ((subtasks_numbered_and_checkbox ["### Phase A"] "2. write tests" []).1
      "write tests" (by decide) (by decide) (by decide)) (by decide)
  · exact Eq.trans ((subtasks_numbered_and_checkbox ["### Phase A"] "1. [X] ship it" []).2
      'X' "ship it" (by decide) (by decide)) (by decide)

/-! ## Trace lemmas for the remaining remote operations -/

theorem opRetrieve_trace (flt : Flt) (pid : PageId) (s : St) :
    (opRetrieve flt pid s).2.trace = s.trace ++ [Call.retrieve pid] := rfl

theorem opUpdatePage_trace (flt : Flt) (pid : PageId) (name : String)
    (rel : Option (Option PageId)) (s : St) :
    (opUpdatePage flt pid name rel s).2.trace = s.trace ++ [Call.updatePage pid] := by
  simp only [opUpdatePage, emit]
  split
  · split <;> rfl
  · rfl

theorem opListChildren_trace (flt : Flt) (pid : PageId) (s : St) :
    (opListChildren flt pid s).2.trace = s.trace ++ [Call.listChildren pid] := by
  simp only [opListChildren, emit]
  split <;> rfl

theorem opDeleteBlock_trace (flt : Flt) (bid : Nat) (s : St) :
    (opDeleteBlock flt bid s).trace = s.trace ++ [Call.deleteBlock bid] := by
  simp only [opDeleteBlock, emit]
  split <;> rfl

theorem opAppendChildren_trace (flt : Flt) (pid : PageId) (n : Nat) (s : St) :
    (opAppendChildren flt pid n s).2.trace = s.trace ++ [Call.appendChildren pid n] := by
  simp only [opAppendChildren, emit]
  split
  · split <;> rfl
  · rfl

theorem opCreatePage_trace (flt : Flt) (db : String) (name : String) (rel : Option PageId)
    (n : Nat) (s : St) :
    (opCreatePage flt db name rel n s).2.trace = s.trace ++ [Call.createPage db name n] := by
  simp only [opCreatePage, emit]
  split <;> rfl

theorem foldlDelete_trace (flt : Flt) (bids : List Nat) :
    ∀ s : St, (bids.foldl (fun s b => opDeleteBlock flt b s) s).trace =
      s.trace ++ bids.map Call.deleteBlock := by
  induction bids with
  | nil => intro s; simp
  | cons b bs ih =>
    intro s
    rw [List.foldl_cons, ih, opDeleteBlock_trace, List.map_cons, List.append_assoc]
    rfl

/-! ## Branch analysis of `syncFeature` -/

theorem syncFeatureCreate_eq (flt : Flt) (f : Feature) (ppid : PageId) (s : St) :
    syncFeatureCreate flt f ppid s =
      (match (opCreatePage flt featuresDb f.title (some ppid) (buildChildren f).length s).1 with
       | some pid => some ⟨pid, "created"⟩
       | none => none,
       (opCreatePage flt featuresDb f.title (some ppid) (buildChildren f).length s).2) := by
  unfold syncFeatureCreate
  rcases h : opCreatePage flt featuresDb f.title (some ppid) (buildChildren f).length s
    with ⟨o, s1⟩
  cases o <;> rfl

theorem syncFeatureCreate_trace (flt : Flt) (f : Feature) (ppid : PageId) (s : St) :
    (syncFeatureCreate flt f ppid s).2.trace =
      s.trace ++ [Call.createPage featuresDb f.title (buildChildren f).length] := by
  rw [syncFeatureCreate_eq]
  exact opCreatePage_trace flt featuresDb f.title (some ppid) (buildChildren f).length s

theorem buildChildren_length_pos (f : Feature) : (buildChildren f).length > 0 := by
  simp [buildChildren]

theorem syncFeatureUpdateOrCreate_some (flt : Flt) (f : Feature) (ppid : PageId)
    (pid : PageId) (s : St) :
    syncFeatureUpdateOrCreate flt f ppid (some pid) s =
      (if pid ≠ "" then
        match opUpdatePage flt pid f.title (some (some ppid)) s with
        | (true, s1) =>
          match opListChildren flt pid s1 with
          | (some bids, s2) =>
            let s3 := bids.foldl (fun s b => opDeleteBlock flt b s) s2
            if (buildChildren f).length > 0 then
              match opAppendChildren flt pid (buildChildren f).length s3 with
              | (true, s4) => (some ⟨pid, "updated"⟩, s4)
              | (false, s4) => syncFeatureCreate flt f ppid s4
            else (some ⟨pid, "updated"⟩, s3)
          | (none, s2) => syncFeatureCreate flt f ppid s2
        | (false, s1) => syncFeatureCreate flt f ppid s1
      else syncFeatureCreate flt f ppid s) := rfl

/-- Trace shape of the update-then-create part: some extension free of
feature-title queries; exactly one create call when no id was passed; an
update attempt on the remembered id first whenever a truthy id was passed. -/
theorem syncFeatureUpdateOrCreate_trace_spec (flt : Flt) (f : Feature) (ppid : PageId)
    (opid : Option PageId) (s : St) :
    ∃ Δ, (syncFeatureUpdateOrCreate flt f ppid opid s).2.trace = s.trace ++ Δ ∧
      (∀ c ∈ Δ, isFeatureQuery c = false) ∧
      (opid = none → Δ = [Call.createPage featuresDb f.title (buildChildren f).length]) ∧
      (∀ pid, opid = some pid → pid ≠ "" → ∃ Δ2, Δ = Call.updatePage pid :: Δ2) := by
  cases opid with
  | none =>
    refine ⟨[Call.createPage featuresDb f.title (buildChildren f).length], ?_, ?_, ?_, ?_⟩
    · exact syncFeatureCreate_trace flt f ppid s
    · intro c hc
      simp at hc
      rw [hc]
      rfl
    · intro _; rfl
    · intro pid h; exact absurd h (by simp)
  | some pid =>
    by_cases hp : pid = ""
    · subst hp
      have hdef : syncFeatureUpdateOrCreate flt f ppid (some "") s =
          syncFeatureCreate flt f ppid s := by
        rw [syncFeatureUpdateOrCreate_some, if_neg (by simp)]
      refine ⟨[Call.createPage featuresDb f.title (buildChildren f).length], ?_, ?_, ?_, ?_⟩
      · rw [hdef]; exact syncFeatureCreate_trace flt f ppid s
      · intro c hc
        simp at hc
        rw [hc]
        rfl
      · intro h; exact absurd h (by simp)
      · intro pid2 h2 hne
        exfalso
        apply hne
        exact (Option.some.inj h2).symm
    · rcases hu : opUpdatePage flt pid f.title (some (some ppid)) s with ⟨ok1, s1⟩
      have ht1 : s1.trace = s.trace ++ [Call.updatePage pid] := by
        have h0 := opUpdatePage_trace flt pid f.title (some (some ppid)) s
        rw [hu] at h0
        exact h0
      have hd1 : syncFeatureUpdateOrCreate flt f ppid (some pid) s =
          (match (ok1, s1) with
           | (true, s1) =>
             match opListChildren flt pid s1 with
             | (some bids, s2) =>
               let s3 := bids.foldl (fun s b => opDeleteBlock flt b s) s2
               if (buildChildren f).length > 0 then
                 match opAppendChildren flt pid (buildChildren f).length s3 with
                 | (true, s4) => (some ⟨pid, "updated"⟩, s4)
                 | (false, s4) => syncFeatureCreate flt f ppid s4
               else (some ⟨pid, "updated"⟩, s3)
             | (none, s2) => syncFeatureCreate flt f ppid s2
           | (false, s1) => syncFeatureCreate flt f ppid s1) := by
        rw [syncFeatureUpdateOrCreate_some, if_pos hp, hu]
      cases ok1 with
      | false =>
        have hd2 : syncFeatureUpdateOrCreate flt f ppid (some pid) s =
            syncFeatureCreate flt f ppid s1 := hd1
        refine ⟨[Call.updatePage pid,
          Call.createPage featuresDb f.title (buildChildren f).length], ?_, ?_, ?_, ?_⟩
        · rw [hd2, syncFeatureCreate_trace, ht1, List.append_assoc]
          rfl
        · intro c hc
          rcases List.mem_cons.mp hc with h | h
          · rw [h]; rfl
          · simp at h; rw [h]; rfl
        · intro h; exact absurd h (by simp)
        · intro pid2 h2 _
          exact ⟨[Call.createPage featuresDb f.title (buildChildren f).length],
            by rw [Option.some.inj h2]⟩
      | true =>
        have hd2 : syncFeatureUpdateOrCreate flt f ppid (some pid) s =
            (match opListChildren flt pid s1 with
             | (some bids, s2) =>
               let s3 := bids.foldl (fun s b => opDeleteBlock flt b s) s2
               if (buildChildren f).length > 0 then
                 match opAppendChildren flt pid (buildChildren f).length s3 with
                 | (true, s4) => (some ⟨pid, "updated"⟩, s4)
                 | (false, s4) => syncFeatureCreate flt f ppid s4
               else (some ⟨pid, "updated"⟩, s3)
             | (none, s2) => syncFeatureCreate flt f ppid s2) := hd1
        rcases hl : opListChildren flt pid s1 with ⟨ob, s2⟩
        rw [hl] at hd2
        have ht2 : s2.trace = s.trace ++ [Call.updatePage pid, Call.listChildren pid] := by
          have h0 := opListChildren_trace flt pid s1
          rw [hl] at h0
          rw [h0, ht1, List.append_assoc]
          rfl
        cases ob with
        | none =>
          have hd3 : syncFeatureUpdateOrCreate flt f ppid (some pid) s =
              syncFeatureCreate flt f ppid s2 := hd2
          refine ⟨[Call.updatePage pid, Call.listChildren pid,
            Call.createPage featuresDb f.title (buildChildren f).length], ?_, ?_, ?_, ?_⟩
          · rw [hd3, syncFeatureCreate_trace, ht2, List.append_assoc]
            rfl
          · intro c hc
            rcases List.mem_cons.mp hc with h | hc2
            · rw [h]; rfl
            rcases List.mem_cons.mp hc2 with h | hc3
            · rw [h]; rfl
            · simp at hc3; rw [hc3]; rfl
          · intro h; exact absurd h (by simp)
          · intro pid2 h2 _
            exact ⟨[Call.listChildren pid,
              Call.createPage featuresDb f.title (buildChildren f).length],
              by rw [Option.some.inj h2]⟩
        | some bids =>
          have ht3 : (bids.foldl (fun s b => opDeleteBlock flt b s) s2).trace =
              s.trace ++ Call.updatePage pid :: Call.listChildren pid ::
                bids.map Call.deleteBlock := by
            rw [foldlDelete_trace, ht2, List.append_assoc]
            rfl
          have hd3 : syncFeatureUpdateOrCreate flt f ppid (some pid) s =
              (if (buildChildren f).length > 0 then
                match opAppendChildren flt pid (buildChildren f).length
                  (bids.foldl (fun s b => opDeleteBlock flt b s) s2) with
                | (true, s4) => (some ⟨pid, "updated"⟩, s4)
                | (false, s4) => syncFeatureCreate flt f ppid s4
              else (some ⟨pid, "updated"⟩, bids.foldl (fun s b => opDeleteBlock flt b s) s2)) :=
            hd2
          rw [if_pos (buildChildren_length_pos f)] at hd3
          rcases ha : opAppendChildren flt pid (buildChildren f).length
              (bids.foldl (fun s b => opDeleteBlock flt b s) s2) with ⟨ok2, s4⟩
          rw [ha] at hd3
          have ht4 : s4.trace = s.trace ++ Call.updatePage pid :: Call.listChildren pid ::
              (bids.map Call.deleteBlock ++
                [Call.appendChildren pid (buildChildren f).length]) := by
            have h0 := opAppendChildren_trace flt pid (buildChildren f).length
              (bids.foldl (fun s b => opDeleteBlock flt b s) s2)
            rw [ha] at h0
            rw [h0, ht3]
            simp
          cases ok2 with
          | true =>
            have hd4 : syncFeatureUpdateOrCreate flt f ppid (some pid) s =
                (some ⟨pid, "updated"⟩, s4) := hd3
            refine ⟨Call.updatePage pid :: Call.listChildren pid ::
              (bids.map Call.deleteBlock ++
                [Call.appendChildren pid (buildChildren f).length]), ?_, ?_, ?_, ?_⟩
            · rw [hd4]; exact ht4
            · intro c hc
              rcases List.mem_cons.mp hc with h | hc2
              · rw [h]; rfl
              rcases List.mem_cons.mp hc2 with h | hc3
              · rw [h]; rfl
              rcases List.mem_append.mp hc3 with h | h
              · rcases List.mem_map.mp h with ⟨b, _, hb⟩
                rw [← hb]; rfl
              · simp at h; rw [h]; rfl
            · intro h; exact absurd h (by simp)
            · intro pid2 h2 _
              exact ⟨Call.listChildren pid :: (bids.map Call.deleteBlock ++
                [Call.appendChildren pid (buildChildren f).length]),
                by rw [Option.some.inj h2]⟩
          | false =>
            have hd4 : syncFeatureUpdateOrCreate flt f ppid (some pid) s =
                syncFeatureCreate flt f ppid s4 := hd3
            refine ⟨Call.updatePage pid :: Call.listChildren pid ::
              (bids.map Call.deleteBlock ++
                [Call.appendChildren pid (buildChildren f).length,
                 Call.createPage featuresDb f.title (buildChildren f).length]), ?_, ?_, ?_, ?_⟩
            · rw [hd4, syncFeatureCreate_trace, ht4]
              simp
            · intro c hc
              rcases List.mem_cons.mp hc with h | hc2
              · rw [h]; rfl
              rcases List.mem_cons.mp hc2 with h | hc3
              · rw [h]; rfl
              rcases List.mem_append.mp hc3 with h | h
              · rcases List.mem_map.mp h with ⟨b, _, hb⟩
                rw [← hb]; rfl
              · rcases List.mem_cons.mp h with h2 | h3
                · rw [h2]; rfl
                · simp at h3; rw [h3]; rfl
            · intro h; exact absurd h (by simp)
            · intro pid2 h2 _
              exact ⟨Call.listChildren pid :: (bids.map Call.deleteBlock ++
                [Call.appendChildren pid (buildChildren f).length,
                 Call.createPage featuresDb f.title (buildChildren f).length]),
                by rw [Option.some.inj h2]⟩

theorem syncFeature_eq (flt : Flt) (f : Feature) (ppid : PageId) (m : Mapping) (s : St) :
    syncFeature flt f ppid m s =
      (match alookup m.featurePageIds f.filePath with
       | some pid =>
         if pid ≠ "" ∧ alookup m.contentHashes f.filePath = some f.hash then
           match opRetrieve flt pid s with
           | (true, s1) => (some ⟨pid, "unchanged"⟩, s1)
           | (false, s1) => syncFeatureUpdateOrCreate flt f ppid (some pid) s1
         else syncFeatureUpdateOrCreate flt f ppid (some pid) s
       | none => syncFeatureUpdateOrCreate flt f ppid none s) := rfl

/-- Trace shape of the whole per-record procedure: some extension free of
feature-title queries; with no mapping entry for the record's key, the
extension is exactly one create call. -/
theorem syncFeature_trace_spec (flt : Flt) (f : Feature) (ppid : PageId) (m : Mapping)
    (s : St) :
    ∃ Δ, (syncFeature flt f ppid m s).2.trace = s.trace ++ Δ ∧
      (∀ c ∈ Δ, isFeatureQuery c = false) ∧
      (alookup m.featurePageIds f.filePath = none →
        Δ = [Call.createPage featuresDb f.title (buildChildren f).length]) := by
  rcases he : alookup m.featurePageIds f.filePath with _ | pid
  · have hd : syncFeature flt f ppid m s = syncFeatureUpdateOrCreate flt f ppid none s := by
      rw [syncFeature_eq, he]
    obtain ⟨Δ, h1, h2, h3, _⟩ := syncFeatureUpdateOrCreate_trace_spec flt f ppid none s
    exact ⟨Δ, by rw [hd]; exact h1, h2, fun _ => h3 rfl⟩
  · by_cases hcond : pid ≠ "" ∧ alookup m.contentHashes f.filePath = some f.hash
    · have hd0 : syncFeature flt f ppid m s =
          (if pid ≠ "" ∧ alookup m.contentHashes f.filePath = some f.hash then
            match opRetrieve flt pid s with
            | (true, s1) => (some ⟨pid, "unchanged"⟩, s1)
            | (false, s1) => syncFeatureUpdateOrCreate flt f ppid (some pid) s1
          else syncFeatureUpdateOrCreate flt f ppid (some pid) s) := by
        rw [syncFeature_eq, he]
      rw [if_pos hcond] at hd0
      rcases hr : opRetrieve flt pid s with ⟨okr, s1⟩
      rw [hr] at hd0
      have ht1 : s1.trace = s.trace ++ [Call.retrieve pid] := by
        have h0 := opRetrieve_trace flt pid s
        rw [hr] at h0
        exact h0
      cases okr with
      | true =>
        have hd2 : syncFeature flt f ppid m s = (some ⟨pid, "unchanged"⟩, s1) := hd0
        refine ⟨[Call.retrieve pid], ?_, ?_, ?_⟩
        · rw [hd2]; exact ht1
        · intro c hc; simp at hc; rw [hc]; rfl
        · intro h; exact Option.noConfusion h
      | false =>
        have hd2 : syncFeature flt f ppid m s =
            syncFeatureUpdateOrCreate flt f ppid (some pid) s1 := hd0
        obtain ⟨Δ, h1, h2, _, _⟩ := syncFeatureUpdateOrCreate_trace_spec flt f ppid (some pid) s1
        refine ⟨Call.retrieve pid :: Δ, ?_, ?_, ?_⟩
        · rw [hd2, h1, ht1]; simp
        · intro c hc
          rcases List.mem_cons.mp hc with h | h
          · rw [h]; rfl
          · exact h2 c h
        · intro h; exact Option.noConfusion h
    · have hd0 : syncFeature flt f ppid m s =
          (if pid ≠ "" ∧ alookup m.contentHashes f.filePath = some f.hash then
            match opRetrieve flt pid s with
            | (true, s1) => (some ⟨pid, "unchanged"⟩, s1)
            | (false, s1) => syncFeatureUpdateOrCreate flt f ppid (some pid) s1
          else syncFeatureUpdateOrCreate flt f ppid (some pid) s) := by
        rw [syncFeature_eq, he]
      rw [if_neg hcond] at hd0
      obtain ⟨Δ, h1, h2, _, _⟩ := syncFeatureUpdateOrCreate_trace_spec flt f ppid (some pid) s
      exact ⟨Δ, by rw [hd0]; exact h1, h2, fun h => Option.noConfusion h⟩

/-! ## Claim C4: the unchanged fast path and the failed probe -/

/-- The unchanged fast path: matching stored hash, truthy id, live probe —
the result is `unchanged` and only the probe is recorded. -/
theorem syncFeature_fast_path (flt : Flt) (f : Feature) (ppid : PageId) (m : Mapping)
    (s : St) (pid : PageId)
    (h1 : alookup m.featurePageIds f.filePath = some pid) (h2 : pid ≠ "")
    (h3 : alookup m.contentHashes f.filePath = some f.hash)
    (h4 : pageExists s.world pid = true) (h5 : flt (Call.retrieve pid) = false) :
    syncFeature flt f ppid m s = (some ⟨pid, "unchanged"⟩, emit s (Call.retrieve pid)) := by
  have hd0 : syncFeature flt f ppid m s =
      (if pid ≠ "" ∧ alookup m.contentHashes f.filePath = some f.hash then
        match opRetrieve flt pid s with
        | (true, s1) => (some ⟨pid, "unchanged"⟩, s1)
        | (false, s1) => syncFeatureUpdateOrCreate flt f ppid (some pid) s1
      else syncFeatureUpdateOrCreate flt f ppid (some pid) s) := by
    rw [syncFeature_eq, h1]
  rw [if_pos ⟨h2, h3⟩] at hd0
  have hr : opRetrieve flt pid s = (true, emit s (Call.retrieve pid)) := by
    show (pageExists (emit s (Call.retrieve pid)).world pid && !flt (Call.retrieve pid),
      emit s (Call.retrieve pid)) = _
    rw [emit_world, h4, h5]
    rfl
  rw [hr] at hd0
  exact hd0

/-- C4 as amended.  First part (the claim's first clause, which holds): with
a mapping entry whose stored fingerprint matches and a successful existence
probe, the action is `unchanged` and the only remote call issued is the
probe itself — the returned state is the input state with just
`pages.retrieve` recorded, so no create, update, block delete or block
append is issued.  Second part (the correction): when the probe fails, the
remembered id is kept, and the record proceeds into the update branch,
issuing `pages.update` on the stale id first — not, as the claim stated, as
if no mapping entry existed (an absent entry issues only a create, with no
update attempt). -/
theorem unchanged_fast_path_or_stale_update (flt : Flt) (f : Feature) (ppid : PageId)
    (m : Mapping) (s : St) (pid : PageId) :
    (alookup m.featurePageIds f.filePath = some pid → pid ≠ "" →
      alookup m.contentHashes f.filePath = some f.hash →
      pageExists s.world pid = true → flt (Call.retrieve pid) = false →
      syncFeature flt f ppid m s = (some ⟨pid, "unchanged"⟩, emit s (Call.retrieve pid))) ∧
    (alookup m.featurePageIds f.filePath = some pid → pid ≠ "" →
      alookup m.contentHashes f.filePath = some f.hash →
      (pageExists s.world pid = false ∨ flt (Call.retrieve pid) = true) →
      ∃ Δ, (syncFeature flt f ppid m s).2.trace =
        s.trace ++ Call.retrieve pid :: Call.updatePage pid :: Δ) := by
  constructor
  · intro h1 h2 h3 h4 h5
    exact syncFeature_fast_path flt f ppid m s pid h1 h2 h3 h4 h5
  · intro h1 h2 h3 h6
    have hd0 : syncFeature flt f ppid m s =
        (if pid ≠ "" ∧ alookup m.contentHashes f.filePath = some f.hash then
          match opRetrieve flt pid s with
          | (true, s1) => (some ⟨pid, "unchanged"⟩, s1)
          | (false, s1) => syncFeatureUpdateOrCreate flt f ppid (some pid) s1
        else syncFeatureUpdateOrCreate flt f ppid (some pid) s) := by
      rw [syncFeature_eq, h1]
    rw [if_pos ⟨h2, h3⟩] at hd0
    have hr : opRetrieve flt pid s = (false, emit s (Call.retrieve pid)) := by
      show (pageExists (emit s (Call.retrieve pid)).world pid && !flt (Call.retrieve pid),
        emit s (Call.retrieve pid)) = _
      rw [emit_world]
      rcases h6 with h | h
      · rw [h]; rfl
      · rw [h]; cases pageExists s.world pid <;> rfl
    rw [hr] at hd0
    rw [show syncFeature flt f ppid m s =
      syncFeatureUpdateOrCreate flt f ppid (some pid) (emit s (Call.retrieve pid)) from hd0]
    obtain ⟨Δ, hΔ, _, _, h4th⟩ :=
      syncFeatureUpdateOrCreate_trace_spec flt f ppid (some pid) (emit s (Call.retrieve pid))
    obtain ⟨Δ2, hΔ2⟩ := h4th pid rfl h2
    refine ⟨Δ2, ?_⟩
    show (syncFeatureUpdateOrCreate flt f ppid (some pid) (emit s (Call.retrieve pid))).2.trace = _
    rw [hΔ, hΔ2]
    show (s.trace ++ [Call.retrieve pid]) ++ Call.updatePage pid :: Δ2 = _
    rw [List.append_assoc]
    rfl

/-- Witness for C4 (amended), both parts at concrete inputs: a fault-free
probe of the live page `pg` gives `unchanged` with only the probe recorded;
a spuriously failing probe leads to an update attempt on the same stale
id. -/
theorem unchanged_fast_path_or_stale_update_witness :
    syncFeature noFaults (sampleFeature "T" "f.md" "h1") "P"
      ⟨some "P", none, [("f.md", "pg")], [("f.md", "h1")]⟩ ⟨cexWorld, []⟩ =
      (some ⟨"pg", "unchanged"⟩, emit ⟨cexWorld, []⟩ (Call.retrieve "pg")) ∧
    ∃ Δ, (syncFeature retrieveFaults (sampleFeature "T" "f.md" "h1") "P"
      ⟨some "P", none, [("f.md", "pg")], [("f.md", "h1")]⟩ ⟨cexWorld, []⟩).2.trace =
      [] ++ Call.retrieve "pg" :: Call.updatePage "pg" :: Δ :=
  ⟨(unchanged_fast_path_or_stale_update noFaults (sampleFeature "T" "f.md" "h1") "P"
      ⟨some "P", none, [("f.md", "pg")], [("f.md", "h1")]⟩ ⟨cexWorld, []⟩ "pg").1
      (by decide) (by decide) (by decide) (by decide) (by decide),
   (unchanged_fast_path_or_stale_update retrieveFaults (sampleFeature "T" "f.md" "h1") "P"
      ⟨some "P", none, [("f.md", "pg")], [("f.md", "h1")]⟩ ⟨cexWorld, []⟩ "pg").2
      (by decide) (by decide) (by decide) (Or.inr (by decide))⟩

/-- C4 counterexample: a record whose stored fingerprint matches but whose
existence probe fails spuriously.  With the mapping entry present, the code
issues an update on the remembered id and reports `updated`; with the entry
absent it issues only a create and reports `created` on a fresh id.  The two
behaviours differ, refuting the claim's clause that a failed probe makes
processing fall through exactly as if no mapping entry existed. -/
theorem probe_failure_not_as_if_unmapped_counterexample :
    (syncFeature retrieveFaults (sampleFeature "T" "f.md" "h1") "P"
      ⟨some "P", none, [("f.md", "pg")], [("f.md", "h1")]⟩ ⟨cexWorld, []⟩).1 =
      some ⟨"pg", "updated"⟩ ∧
    (syncFeature retrieveFaults (sampleFeature "T" "f.md" "h1") "P"
      ⟨some "P", none, [], []⟩ ⟨cexWorld, []⟩).1 = some ⟨"p", "created"⟩ ∧
    (syncFeature retrieveFaults (sampleFeature "T" "f.md" "h1") "P"
      ⟨some "P", none, [("f.md", "pg")], [("f.md", "h1")]⟩ ⟨cexWorld, []⟩).2.trace =
      [Call.retrieve "pg", Call.updatePage "pg", Call.listChildren "pg",
       Call.appendChildren "pg" 2] ∧
    (syncFeature retrieveFaults (sampleFeature "T" "f.md" "h1") "P"
      ⟨some "P", none, [], []⟩ ⟨cexWorld, []⟩).2.trace =
      [Call.createPage featuresDb "T" 2] := by
  refine ⟨?_, ?_, ?_, ?_⟩ <;> decide

/-! ## Claim C5: no fallback search before create -/

/-- C5 as amended: the per-record reconciliation never issues the
title+group search (`findFeaturePage` is defined by the source but never
called); for a record whose key has no persisted remote id, the only remote
call issued is the create — no search precedes it. -/
theorem create_without_fallback_search (flt : Flt) (f : Feature) (ppid : PageId)
    (m : Mapping) (s : St) :
    (∀ c ∈ (syncFeature flt f ppid m s).2.trace, c ∈ s.trace ∨ isFeatureQuery c = false) ∧
    (alookup m.featurePageIds f.filePath = none →
      (syncFeature flt f ppid m s).2.trace =
        s.trace ++ [Call.createPage featuresDb f.title (buildChildren f).length]) := by
  obtain ⟨Δ, h1, h2, h3⟩ := syncFeature_trace_spec flt f ppid m s
  constructor
  · intro c hc
    rw [h1] at hc
    rcases List.mem_append.mp hc with h | h
    · exact Or.inl h
    · exact Or.inr (h2 c h)
  · intro h
    rw [h1, h3 h]

/-- Witness for C5 (amended) at a concrete record with no mapping entry. -/
theorem create_without_fallback_search_witness :
    (syncFeature noFaults (sampleFeature "Export" "roadmap/backlog/001.md" "h") "P"
      emptyMapping ⟨cexWorld, []⟩).2.trace = [Call.createPage featuresDb "Export" 2] :=
  (create_without_fallback_search noFaults (sampleFeature "Export" "roadmap/backlog/001.md" "h")
    "P" emptyMapping ⟨cexWorld, []⟩).2 (by decide)

/-- C5 counterexample: the remote already holds a live feature page `F1`
titled `Export` related to the project `P`, so the fallback search would
resolve it; yet for a record with no persisted id the reconciler issues a
create directly — the trace holds the create call and no
`queryFeaturesByTitle` call ever appears, so a remote record is created even
though the search would not have returned none.  This refutes the claim that
a search is attempted before creating and that a create happens only when it
returns none. -/
theorem no_fallback_search_counterexample :
    (findFeaturePage noFaults "Export" "P" ⟨cexWorld, []⟩).1 = some "F1" ∧
    (syncFeature noFaults (sampleFeature "Export" "roadmap/backlog/001.md" "h") "P"
      emptyMapping ⟨cexWorld, []⟩).2.trace = [Call.createPage featuresDb "Export" 2] ∧
    (syncFeature noFaults (sampleFeature "Export" "roadmap/backlog/001.md" "h") "P"
      emptyMapping ⟨cexWorld, []⟩).1 = some ⟨"p", "created"⟩ := by
  refine ⟨?_, ?_, ?_⟩ <;> decide

/-! ## Claim C2: failure policy -/

theorem opUpdatePage_fault (flt : Flt) (pid : PageId) (name : String)
    (rel : Option (Option PageId)) (s : St) (h : flt (Call.updatePage pid) = true) :
    opUpdatePage flt pid name rel s = (false, emit s (Call.updatePage pid)) := by
  simp only [opUpdatePage, emit]
  split
  · split
    · rfl
    · rename_i hcond
      rw [h] at hcond
      simp at hcond
  · rfl

theorem opCreatePage_ok (flt : Flt) (db : String) (name : String) (rel : Option PageId)
    (n : Nat) (s : St) (h : flt (Call.createPage db name n) = false) :
    (opCreatePage flt db name rel n s).1 = some (freshPageId s.world.nextPageId) := by
  simp only [opCreatePage, emit]
  rw [h]
  rfl

/-- A spurious failure of a record's property update alone does not throw:
the reconciler falls back to creating a fresh page. -/
theorem syncFeature_update_fault_creates (flt : Flt) (f : Feature) (ppid : PageId)
    (m : Mapping) (s : St) (pid : PageId)
    (h1 : alookup m.featurePageIds f.filePath = some pid) (h2 : pid ≠ "")
    (h3 : alookup m.contentHashes f.filePath ≠ some f.hash)
    (h4 : flt (Call.updatePage pid) = true)
    (h5 : flt (Call.createPage featuresDb f.title (buildChildren f).length) = false) :
    (syncFeature flt f ppid m s).1 = some ⟨freshPageId s.world.nextPageId, "created"⟩ := by
  have hcond : ¬(pid ≠ "" ∧ alookup m.contentHashes f.filePath = some f.hash) :=
    fun hh => h3 hh.2
  have hd0 : syncFeature flt f ppid m s =
      (if pid ≠ "" ∧ alookup m.contentHashes f.filePath = some f.hash then
        match opRetrieve flt pid s with
        | (true, s1) => (some ⟨pid, "unchanged"⟩, s1)
        | (false, s1) => syncFeatureUpdateOrCreate flt f ppid (some pid) s1
      else syncFeatureUpdateOrCreate flt f ppid (some pid) s) := by
    rw [syncFeature_eq, h1]
  rw [if_neg hcond] at hd0
  have hu := opUpdatePage_fault flt pid f.title (some (some ppid)) s h4
  have hd1 : syncFeatureUpdateOrCreate flt f ppid (some pid) s =
      syncFeatureCreate flt f ppid (emit s (Call.updatePage pid)) := by
    rw [syncFeatureUpdateOrCreate_some, if_pos h2, hu]
  rw [hd0, hd1, syncFeatureCreate_eq]
  have hc := opCreatePage_ok flt featuresDb f.title (some ppid) (buildChildren f).length
    (emit s (Call.updatePage pid)) h5
  show (match (opCreatePage flt featuresDb f.title (some ppid) (buildChildren f).length
      (emit s (Call.updatePage pid))).1 with
    | some pid2 => some (⟨pid2, "created"⟩ : SyncOutcome)
    | none => none) = _
  rw [hc]
  rfl

theorem runFeatures_cons (flt : Flt) (ppid : PageId) (f : Feature) (fs : List Feature)
    (m : Mapping) (c u n : Nat) (acts : List (String × String)) (s : St) :
    runFeatures flt ppid (f :: fs) m c u n acts s =
      (match syncFeature flt f ppid m s with
       | (none, s1) => ⟨false, m, c, u, n, acts, s1⟩
       | (some r, s1) =>
         runFeatures flt ppid fs
           {m with featurePageIds := aset m.featurePageIds f.filePath r.pageId,
                   contentHashes := aset m.contentHashes f.filePath f.hash}
           (if r.action = "created" then (c + 1, u, n)
            else if r.action = "updated" then (c, u + 1, n)
            else (c, u, n + 1) : Nat × Nat × Nat).1
           (if r.action = "created" then (c + 1, u, n)
            else if r.action = "updated" then (c, u + 1, n)
            else (c, u, n + 1) : Nat × Nat × Nat).2.1
           (if r.action = "created" then (c + 1, u, n)
            else if r.action = "updated" then (c, u + 1, n)
            else (c, u, n + 1) : Nat × Nat × Nat).2.2
           (acts ++ [(f.filePath, r.action)]) s1) := rfl

/-- A thrown `syncFeature` stops the loop at that record: the remaining
records are never processed and the counters, actions and mapping are left
as they were. -/
theorem runFeatures_abort (flt : Flt) (ppid : PageId) (f : Feature) (fs : List Feature)
    (m : Mapping) (c u n : Nat) (acts : List (String × String)) (s s1 : St)
    (h : syncFeature flt f ppid m s = (none, s1)) :
    runFeatures flt ppid (f :: fs) m c u n acts s = ⟨false, m, c, u, n, acts, s1⟩ := by
  rw [runFeatures_cons, h]

theorem runSync_proj_some (flt : Flt) (pn : String) (rm : Option String) (ts : String)
    (features : List Feature) (m0 : Mapping) (s s1 : St) (ppid : PageId) (act : String)
    (hp : syncProject flt pn rm m0 s = (some (ppid, act), s1)) :
    runSync flt pn rm ts features m0 s =
      (if (runFeatures flt ppid features {m0 with projectPageId := some ppid} 0 0 0 [] s1).ok then
        ⟨some {(cleanupDeletedFeatures flt features
            (runFeatures flt ppid features {m0 with projectPageId := some ppid} 0 0 0 [] s1).m
            (runFeatures flt ppid features {m0 with projectPageId := some ppid} 0 0 0 [] s1).st).2.1
            with lastSync := some ts},
         (runFeatures flt ppid features {m0 with projectPageId := some ppid} 0 0 0 [] s1).created,
         (runFeatures flt ppid features {m0 with projectPageId := some ppid} 0 0 0 [] s1).updated,
         (runFeatures flt ppid features {m0 with projectPageId := some ppid} 0 0 0 [] s1).unchanged,
         (runFeatures flt ppid features {m0 with projectPageId := some ppid} 0 0 0 [] s1).actions,
         (cleanupDeletedFeatures flt features
            (runFeatures flt ppid features {m0 with projectPageId := some ppid} 0 0 0 [] s1).m
            (runFeatures flt ppid features {m0 with projectPageId := some ppid} 0 0 0 [] s1).st).1,
         (cleanupDeletedFeatures flt features
            (runFeatures flt ppid features {m0 with projectPageId := some ppid} 0 0 0 [] s1).m
            (runFeatures flt ppid features {m0 with projectPageId := some ppid} 0 0 0 [] s1).st).2.2⟩
      else
        ⟨none,
         (runFeatures flt ppid features {m0 with projectPageId := some ppid} 0 0 0 [] s1).created,
         (runFeatures flt ppid features {m0 with projectPageId := some ppid} 0 0 0 [] s1).updated,
         (runFeatures flt ppid features {m0 with projectPageId := some ppid} 0 0 0 [] s1).unchanged,
         (runFeatures flt ppid features {m0 with projectPageId := some ppid} 0 0 0 [] s1).actions,
         0,
         (runFeatures flt ppid features {m0 with projectPageId := some ppid} 0 0 0 [] s1).st⟩) := by
  unfold runSync
  rw [hp]

/-- When the feature loop ends in a thrown error, the whole run aborts:
`saveMapping` is never reached. -/
theorem runSync_abort (flt : Flt) (pn : String) (rm : Option String) (ts : String)
    (features : List Feature) (m0 : Mapping) (s s1 : St) (ppid : PageId) (act : String)
    (hp : syncProject flt pn rm m0 s = (some (ppid, act), s1))
    (hL : (runFeatures flt ppid features
      {m0 with projectPageId := some ppid} 0 0 0 [] s1).ok = false) :
    (runSync flt pn rm ts features m0 s).saved = none := by
  rw [runSync_proj_some flt pn rm ts features m0 s s1 ppid act hp, hL]
  rfl

/-- C2 as amended.  A spurious failure of one record's property update does
not abort anything: `syncFeature` falls back to creating a new page and
reports `created`.  But a thrown create is not caught anywhere: the feature
loop stops at the failing record, the remaining records are never processed,
no error is counted, and the run's `saveMapping` is never reached, so all
state mutated in memory before the failure is lost. -/
theorem failure_policy_update_vs_create :
    (∀ (flt : Flt) (f : Feature) (ppid : PageId) (m : Mapping) (s : St) (pid : PageId),
      alookup m.featurePageIds f.filePath = some pid → pid ≠ "" →
      alookup m.contentHashes f.filePath ≠ some f.hash →
      flt (Call.updatePage pid) = true →
      flt (Call.createPage featuresDb f.title (buildChildren f).length) = false →
      (syncFeature flt f ppid m s).1 = some ⟨freshPageId s.world.nextPageId, "created"⟩) ∧
    (∀ (flt : Flt) (ppid : PageId) (f : Feature) (fs : List Feature) (m : Mapping)
      (c u n : Nat) (acts : List (String × String)) (s s1 : St),
      syncFeature flt f ppid m s = (none, s1) →
      runFeatures flt ppid (f :: fs) m c u n acts s = ⟨false, m, c, u, n, acts, s1⟩) ∧
    (∀ (flt : Flt) (pn : String) (rm : Option String) (ts : String)
      (features : List Feature) (m0 : Mapping) (s s1 : St) (ppid : PageId) (act : String),
      syncProject flt pn rm m0 s = (some (ppid, act), s1) →
      (runFeatures flt ppid features
        {m0 with projectPageId := some ppid} 0 0 0 [] s1).ok = false →
      (runSync flt pn rm ts features m0 s).saved = none) :=
  ⟨fun flt f ppid m s pid h1 h2 h3 h4 h5 =>
      syncFeature_update_fault_creates flt f ppid m s pid h1 h2 h3 h4 h5,
   fun flt ppid f fs m c u n acts s s1 h =>
      runFeatures_abort flt ppid f fs m c u n acts s s1 h,
   fun flt pn rm ts features m0 s s1 ppid act hp hL =>
      runSync_abort flt pn rm ts features m0 s s1 ppid act hp hL⟩

/-- Witness for C2 (amended), all three parts at concrete inputs. -/
theorem failure_policy_update_vs_create_witness :
    (syncFeature updateFaults (sampleFeature "T" "f.md" "h1") "P"
      ⟨some "P", none, [("f.md", "pg")], [("f.md", "OLD")]⟩ ⟨cexWorld, []⟩).1 =
      some ⟨freshPageId 0, "created"⟩ ∧
    runFeatures createFaults "P" [sampleFeature "A" "a.md" "h"] mProj 0 0 0 [] ⟨cexWorld, []⟩ =
      ⟨false, mProj, 0, 0, 0, [], ⟨cexWorld, [Call.createPage featuresDb "A" 2]⟩⟩ ∧
    (runSync createFaults "proj" none "ts" [sampleFeature "A" "a.md" "h"] mProj
      ⟨cexWorld, []⟩).saved = none :=
  ⟨failure_policy_update_vs_create.1 updateFaults (sampleFeature "T" "f.md" "h1") "P"
      ⟨some "P", none, [("f.md", "pg")], [("f.md", "OLD")]⟩ ⟨cexWorld, []⟩ "pg"
      (by decide) (by decide) (by decide) (by decide) (by decide),
   failure_policy_update_vs_create.2.1 createFaults "P" (sampleFeature "A" "a.md" "h") []
      mProj 0 0 0 [] ⟨cexWorld, []⟩ ⟨cexWorld, [Call.createPage featuresDb "A" 2]⟩
      (by decide),
   failure_policy_update_vs_create.2.2 createFaults "proj" none "ts"
      [sampleFeature "A" "a.md" "h"] mProj ⟨cexWorld, []⟩
      (syncProject createFaults "proj" none mProj ⟨cexWorld, []⟩).2 "P" "updated"
      (by decide) (by decide)⟩

/-- C2 counterexample: a run of two records under a fault schedule failing
only create calls.  The first record's create throws, the run aborts: the
mapping is not saved (`saved = none`), no per-record outcome is recorded,
no error is counted anywhere, and the trace shows the second record was
never processed — contradicting the claim that processing continues and the
mutated state is still persisted. -/
theorem run_aborts_on_create_failure_counterexample :
    (runSync createFaults "proj" none "ts"
      [sampleFeature "A" "a.md" "h", sampleFeature "B" "b.md" "h"] mProj
      ⟨cexWorld, []⟩).saved = none ∧
    (runSync createFaults "proj" none "ts"
      [sampleFeature "A" "a.md" "h", sampleFeature "B" "b.md" "h"] mProj
      ⟨cexWorld, []⟩).actions = [] ∧
    (runSync createFaults "proj" none "ts"
      [sampleFeature "A" "a.md" "h", sampleFeature "B" "b.md" "h"] mProj
      ⟨cexWorld, []⟩).st.trace =
      [Call.retrieve "P", Call.updatePage "P", Call.createPage featuresDb "A" 2] := by
  refine ⟨?_, ?_, ?_⟩ <;> decide

/-! ## World lemmas for the fault-free runs (claim C1) -/

theorem pageLive_exists {w : World} {x : PageId} (h : pageLive w x = true) :
    pageExists w x = true := by
  unfold pageLive at h
  unfold pageExists
  cases hg : getPage w x
  · rw [hg] at h; exact Bool.noConfusion h
  · rfl

theorem freshPageId_ne_empty (n : Nat) : freshPageId n ≠ "" := by
  intro h
  have h2 := congrArg String.data h
  simp [freshPageId] at h2

theorem opRetrieve_noFaults (pid : PageId) (s : St) :
    opRetrieve noFaults pid s = (pageExists s.world pid, emit s (Call.retrieve pid)) := by
  show (pageExists (emit s (Call.retrieve pid)).world pid && !noFaults (Call.retrieve pid),
    emit s (Call.retrieve pid)) = _
  rw [emit_world]
  simp [noFaults]

theorem opRetrieve_world (flt : Flt) (pid : PageId) (s : St) :
    (opRetrieve flt pid s).2.world = s.world := rfl

theorem opListChildren_world (flt : Flt) (pid : PageId) (s : St) :
    (opListChildren flt pid s).2.world = s.world := by
  simp only [opListChildren, emit]
  split <;> rfl

theorem opListChildren_noFaults_exists (pid : PageId) (s : St)
    (h : pageExists s.world pid = true) :
    ∃ bids, opListChildren noFaults pid s = (some bids, emit s (Call.listChildren pid)) := by
  unfold pageExists at h
  simp only [opListChildren, emit_world]
  rcases hg : getPage s.world pid with _ | pg
  · rw [hg] at h; exact Bool.noConfusion h
  · exact ⟨pg.blocks, by simp [noFaults]⟩

theorem opUpdatePage_exists_mono (flt : Flt) (pid : PageId) (name : String)
    (rel : Option (Option PageId)) (s : St) (x : PageId)
    (h : pageExists s.world x = true) :
    pageExists (opUpdatePage flt pid name rel s).2.world x = true := by
  simp only [opUpdatePage, emit]
  split
  · split
    · exact h
    · by_cases hx : x = pid
      · subst hx
        simp [pageExists, getPage, alookup_aset_self]
      · simpa [pageExists, getPage, alookup_aset_other _ _ _ _ hx] using h
  · exact h

theorem opUpdatePage_live_mono (flt : Flt) (pid : PageId) (name : String)
    (rel : Option (Option PageId)) (s : St) (x : PageId)
    (h : pageLive s.world x = true) :
    pageLive (opUpdatePage flt pid name rel s).2.world x = true := by
  simp only [opUpdatePage, emit]
  split
  · rename_i pg hg
    split
    · exact h
    · by_cases hx : x = pid
      · subst hx
        unfold pageLive at h
        rw [hg] at h
        simpa [pageLive, getPage, alookup_aset_self] using h
      · simpa [pageLive, getPage, alookup_aset_other _ _ _ _ hx] using h
  · exact h

theorem alookup_map_vals {α β : Type} (g : α → β) (l : List (String × α)) (k : String) :
    alookup (l.map (fun kv => (kv.1, g kv.2))) k = (alookup l k).map g := by
  induction l with
  | nil => rfl
  | cons kv rest ih =>
    by_cases hx : kv.1 = k
    · simp [alookup_cons, hx]
    · simpa [alookup_cons, hx] using ih

theorem opUpdatePage_noFaults_live (pid : PageId) (name : String)
    (rel : Option (Option PageId)) (s : St) (h : pageLive s.world pid = true) :
    (opUpdatePage noFaults pid name rel s).1 = true ∧
    pageLive (opUpdatePage noFaults pid name rel s).2.world pid = true := by
  unfold pageLive at h
  simp only [opUpdatePage, emit]
  rcases hg : getPage s.world pid with _ | pg
  · rw [hg] at h
    exact Bool.noConfusion h
  · rw [hg] at h
    have h2 : (!pg.archived) = true := h
    have harch : pg.archived = false := by
      cases hb : pg.archived
      · rfl
      · rw [hb] at h2; exact Bool.noConfusion h2
    simp only [harch, noFaults]
    constructor
    · rfl
    · simp [pageLive, getPage, alookup_aset_self, harch]

theorem opUpdatePage_noFaults_dead (pid : PageId) (name : String)
    (rel : Option (Option PageId)) (s : St) (h : pageLive s.world pid = false) :
    opUpdatePage noFaults pid name rel s = (false, emit s (Call.updatePage pid)) := by
  unfold pageLive at h
  simp only [opUpdatePage, emit]
  rcases hg : getPage s.world pid with _ | pg
  · rfl
  · rw [hg] at h
    have h2 : (!pg.archived) = false := h
    have harch : pg.archived = true := by
      cases hb : pg.archived
      · rw [hb] at h2; exact Bool.noConfusion h2
      · rfl
    simp [harch]

theorem alookup_filter_blocks (bid : Nat) (l : List (String × PageData)) (k : String) :
    alookup (l.map (fun kv => (kv.1,
      (⟨kv.2.db, kv.2.name, kv.2.relatedProject, kv.2.archived,
        kv.2.blocks.filter (fun b => b ≠ bid)⟩ : PageData)))) k =
    (alookup l k).map (fun pg => (⟨pg.db, pg.name, pg.relatedProject, pg.archived,
      pg.blocks.filter (fun b => b ≠ bid)⟩ : PageData)) := by
  induction l with
  | nil => rfl
  | cons kv rest ih =>
    by_cases hx : kv.1 = k
    · simp [alookup_cons, hx]
    · simpa [alookup_cons, hx] using ih

theorem opDeleteBlock_world_pages (flt : Flt) (bid : Nat) (s : St) (x : PageId) :
    getPage (opDeleteBlock flt bid s).world x = (getPage s.world x).map
      (fun pg => if flt (Call.deleteBlock bid) then pg
        else (⟨pg.db, pg.name, pg.relatedProject, pg.archived,
          pg.blocks.filter (fun b => b ≠ bid)⟩ : PageData)) := by
  simp only [opDeleteBlock, emit]
  split
  · rename_i hf
    simp only [hf]
    cases getPage s.world x <;> rfl
  · rename_i hf
    have hf2 : flt (Call.deleteBlock bid) = false := by
      cases hb : flt (Call.deleteBlock bid)
      · rfl
      · exact absurd hb hf
    simp only [hf2]
    have h0 := alookup_filter_blocks bid s.world.pages x
    refine Eq.trans ?_ (Eq.trans h0 ?_)
    · rfl
    · unfold getPage
      cases alookup s.world.pages x <;> simp [hf2]

theorem opDeleteBlock_exists (flt : Flt) (bid : Nat) (s : St) (x : PageId) :
    pageExists (opDeleteBlock flt bid s).world x = pageExists s.world x := by
  unfold pageExists
  rw [opDeleteBlock_world_pages]
  cases getPage s.world x <;> rfl

theorem opDeleteBlock_live (flt : Flt) (bid : Nat) (s : St) (x : PageId) :
    pageLive (opDeleteBlock flt bid s).world x = pageLive s.world x := by
  unfold pageLive
  rw [opDeleteBlock_world_pages]
  cases getPage s.world x
  · rfl
  · rename_i pg
    by_cases hf : flt (Call.deleteBlock bid) = true
    · simp only [hf]
      rfl
    · have hf2 : flt (Call.deleteBlock bid) = false := by
        cases hb : flt (Call.deleteBlock bid)
        · rfl
        · exact absurd hb hf
      simp only [hf2]
      rfl

theorem foldlDelete_exists (flt : Flt) (bids : List Nat) :
    ∀ s : St, ∀ x : PageId,
      pageExists (bids.foldl (fun s b => opDeleteBlock flt b s) s).world x =
        pageExists s.world x := by
  induction bids with
  | nil => intro s x; rfl
  | cons b bs ih =>
    intro s x
    rw [List.foldl_cons, ih, opDeleteBlock_exists]

theorem foldlDelete_live (flt : Flt) (bids : List Nat) :
    ∀ s : St, ∀ x : PageId,
      pageLive (bids.foldl (fun s b => opDeleteBlock flt b s) s).world x =
        pageLive s.world x := by
  induction bids with
  | nil => intro s x; rfl
  | cons b bs ih =>
    intro s x
    rw [List.foldl_cons, ih, opDeleteBlock_live]

theorem opAppendChildren_exists_mono (flt : Flt) (pid : PageId) (n : Nat) (s : St) (x : PageId)
    (h : pageExists s.world x = true) :
    pageExists (opAppendChildren flt pid n s).2.world x = true := by
  simp only [opAppendChildren, emit]
  split
  · split
    · exact h
    · by_cases hx : x = pid
      · subst hx
        simp [pageExists, getPage, alookup_aset_self]
      · simpa [pageExists, getPage, alookup_aset_other _ _ _ _ hx] using h
  · exact h

theorem opAppendChildren_live_mono (flt : Flt) (pid : PageId) (n : Nat) (s : St) (x : PageId)
    (h : pageLive s.world x = true) :
    pageLive (opAppendChildren flt pid n s).2.world x = true := by
  simp only [opAppendChildren, emit]
  split
  · rename_i pg hg
    split
    · exact h
    · by_cases hx : x = pid
      · subst hx
        unfold pageLive at h
        rw [hg] at h
        simpa [pageLive, getPage, alookup_aset_self] using h
      · simpa [pageLive, getPage, alookup_aset_other _ _ _ _ hx] using h
  · exact h

theorem opAppendChildren_noFaults_live (pid : PageId) (n : Nat) (s : St)
    (h : pageLive s.world pid = true) :
    (opAppendChildren noFaults pid n s).1 = true := by
  unfold pageLive at h
  simp only [opAppendChildren, emit]
  rcases hg : getPage s.world pid with _ | pg
  · rw [hg] at h
    exact Bool.noConfusion h
  · rw [hg] at h
    have h2 : (!pg.archived) = true := h
    have harch : pg.archived = false := by
      cases hb : pg.archived
      · rfl
      · rw [hb] at h2; exact Bool.noConfusion h2
    simp [harch, noFaults]

theorem opCreatePage_noFaults (db : String) (name : String) (rel : Option PageId) (n : Nat)
    (s : St) :
    opCreatePage noFaults db name rel n s =
      (some (freshPageId s.world.nextPageId),
       ⟨⟨aset s.world.pages (freshPageId s.world.nextPageId)
           ⟨db, name, rel, false, List.range' s.world.nextBlockId n⟩,
         s.world.nextPageId + 1, s.world.nextBlockId + n⟩,
        s.trace ++ [Call.createPage db name n]⟩) := rfl

theorem opCreatePage_exists_mono (flt : Flt) (db : String) (name : String)
    (rel : Option PageId) (n : Nat) (s : St) (x : PageId)
    (h : pageExists s.world x = true) :
    pageExists (opCreatePage flt db name rel n s).2.world x = true := by
  simp only [opCreatePage, emit]
  split
  · exact h
  · by_cases hx : x = freshPageId s.world.nextPageId
    · subst hx
      simp [pageExists, getPage, alookup_aset_self]
    · simpa [pageExists, getPage, alookup_aset_other _ _ _ _ hx] using h

theorem opCreatePage_live_mono (flt : Flt) (db : String) (name : String)
    (rel : Option PageId) (n : Nat) (s : St) (x : PageId)
    (h : pageLive s.world x = true) :
    pageLive (opCreatePage flt db name rel n s).2.world x = true := by
  simp only [opCreatePage, emit]
  split
  · exact h
  · by_cases hx : x = freshPageId s.world.nextPageId
    · subst hx
      simp [pageLive, getPage, alookup_aset_self]
    · simpa [pageLive, getPage, alookup_aset_other _ _ _ _ hx] using h

theorem opCreatePage_fresh_exists (flt : Flt) (db : String) (name : String)
    (rel : Option PageId) (n : Nat) (s : St) (pid : PageId)
    (h : (opCreatePage flt db name rel n s).1 = some pid) :
    pageExists (opCreatePage flt db name rel n s).2.world pid = true := by
  by_cases hf : flt (Call.createPage db name n) = true
  · have hx : (opCreatePage flt db name rel n s).1 = none := by
      simp [opCreatePage, emit, hf]
    rw [hx] at h
    exact Option.noConfusion h
  · have hf2 : flt (Call.createPage db name n) = false := by
      cases hb : flt (Call.createPage db name n)
      · rfl
      · exact absurd hb hf
    have hx : opCreatePage flt db name rel n s =
        (some (freshPageId s.world.nextPageId),
         ⟨⟨aset s.world.pages (freshPageId s.world.nextPageId)
             ⟨db, name, rel, false, List.range' s.world.nextBlockId n⟩,
           s.world.nextPageId + 1, s.world.nextBlockId + n⟩,
          s.trace ++ [Call.createPage db name n]⟩) := by
      simp [opCreatePage, emit, hf2]
    rw [hx] at h ⊢
    have h2 := Option.some.inj h
    subst h2
    simp [pageExists, getPage, alookup_aset_self]

theorem opArchivePage_live_other (flt : Flt) (pid : PageId) (s : St) (x : PageId)
    (h : x ≠ pid) :
    pageLive (opArchivePage flt pid s).2.world x = pageLive s.world x := by
  unfold pageLive
  rw [opArchivePage_world_other flt pid s x h]

/-! ## Fault-free behaviour of `syncFeature` -/

theorem syncFeatureCreate_noFaults (f : Feature) (ppid : PageId) (s : St) :
    ∃ s2, syncFeatureCreate noFaults f ppid s =
      (some ⟨freshPageId s.world.nextPageId, "created"⟩, s2) ∧
      pageExists s2.world (freshPageId s.world.nextPageId) = true ∧
      (∀ x, pageExists s.world x = true → pageExists s2.world x = true) ∧
      (∀ x, pageLive s.world x = true → pageLive s2.world x = true) := by
  refine ⟨(opCreatePage noFaults featuresDb f.title (some ppid) (buildChildren f).length s).2,
    ?_, ?_, ?_, ?_⟩
  · rw [syncFeatureCreate_eq, opCreatePage_noFaults]
  · exact opCreatePage_fresh_exists noFaults featuresDb f.title (some ppid)
      (buildChildren f).length s (freshPageId s.world.nextPageId)
      (by rw [opCreatePage_noFaults])
  · intro x hx
    exact opCreatePage_exists_mono noFaults featuresDb f.title (some ppid)
      (buildChildren f).length s x hx
  · intro x hx
    exact opCreatePage_live_mono noFaults featuresDb f.title (some ppid)
      (buildChildren f).length s x hx

theorem syncFeatureUpdateOrCreate_noFaults (f : Feature) (ppid : PageId)
    (opid : Option PageId) (s : St) :
    ∃ r s2, syncFeatureUpdateOrCreate noFaults f ppid opid s = (some r, s2) ∧
      r.pageId ≠ "" ∧ pageExists s2.world r.pageId = true ∧
      (∀ x, pageExists s.world x = true → pageExists s2.world x = true) ∧
      (∀ x, pageLive s.world x = true → pageLive s2.world x = true) := by
  cases opid with
  | none =>
    obtain ⟨s2, h1, h2, h3, h4⟩ := syncFeatureCreate_noFaults f ppid s
    exact ⟨⟨freshPageId s.world.nextPageId, "created"⟩, s2, h1,
      freshPageId_ne_empty s.world.nextPageId, h2, h3, h4⟩
  | some pid =>
    by_cases hp : pid = ""
    · subst hp
      have hdef : syncFeatureUpdateOrCreate noFaults f ppid (some "") s =
          syncFeatureCreate noFaults f ppid s := by
        rw [syncFeatureUpdateOrCreate_some, if_neg (by simp)]
      obtain ⟨s2, h1, h2, h3, h4⟩ := syncFeatureCreate_noFaults f ppid s
      exact ⟨⟨freshPageId s.world.nextPageId, "created"⟩, s2, by rw [hdef]; exact h1,
        freshPageId_ne_empty s.world.nextPageId, h2, h3, h4⟩
    · by_cases hlive : pageLive s.world pid = true
      · obtain ⟨hu1, hu2⟩ := opUpdatePage_noFaults_live pid f.title (some (some ppid)) s hlive
        have hu : opUpdatePage noFaults pid f.title (some (some ppid)) s =
            (true, (opUpdatePage noFaults pid f.title (some (some ppid)) s).2) := by
          rw [← hu1]
        have hd1 : syncFeatureUpdateOrCreate noFaults f ppid (some pid) s =
            (match opListChildren noFaults pid
                (opUpdatePage noFaults pid f.title (some (some ppid)) s).2 with
             | (some bids, s2) =>
               let s3 := bids.foldl (fun s b => opDeleteBlock noFaults b s) s2
               if (buildChildren f).length > 0 then
                 match opAppendChildren noFaults pid (buildChildren f).length s3 with
                 | (true, s4) => (some ⟨pid, "updated"⟩, s4)
                 | (false, s4) => syncFeatureCreate noFaults f ppid s4
               else (some ⟨pid, "updated"⟩, s3)
             | (none, s2) => syncFeatureCreate noFaults f ppid s2) := by
          rw [syncFeatureUpdateOrCreate_some, if_pos hp, hu]
        obtain ⟨bids, hl⟩ := opListChildren_noFaults_exists pid
          (opUpdatePage noFaults pid f.title (some (some ppid)) s).2 (pageLive_exists hu2)
        rw [hl] at hd1
        have hd2 : syncFeatureUpdateOrCreate noFaults f ppid (some pid) s =
            (if (buildChildren f).length > 0 then
              match opAppendChildren noFaults pid (buildChildren f).length
                (bids.foldl (fun s b => opDeleteBlock noFaults b s)
                  (emit (opUpdatePage noFaults pid f.title (some (some ppid)) s).2
                    (Call.listChildren pid))) with
              | (true, s4) => (some ⟨pid, "updated"⟩, s4)
              | (false, s4) => syncFeatureCreate noFaults f ppid s4
            else (some ⟨pid, "updated"⟩,
              bids.foldl (fun s b => opDeleteBlock noFaults b s)
                (emit (opUpdatePage noFaults pid f.title (some (some ppid)) s).2
                  (Call.listChildren pid)))) := hd1
        rw [if_pos (buildChildren_length_pos f)] at hd2
        have hlive3 : pageLive (bids.foldl (fun s b => opDeleteBlock noFaults b s)
            (emit (opUpdatePage noFaults pid f.title (some (some ppid)) s).2
              (Call.listChildren pid))).world pid = true := by
          rw [foldlDelete_live]
          exact hu2
        have ha1 := opAppendChildren_noFaults_live pid (buildChildren f).length
          (bids.foldl (fun s b => opDeleteBlock noFaults b s)
            (emit (opUpdatePage noFaults pid f.title (some (some ppid)) s).2
              (Call.listChildren pid))) hlive3
        have ha : opAppendChildren noFaults pid (buildChildren f).length
            (bids.foldl (fun s b => opDeleteBlock noFaults b s)
              (emit (opUpdatePage noFaults pid f.title (some (some ppid)) s).2
                (Call.listChildren pid))) =
            (true, (opAppendChildren noFaults pid (buildChildren f).length
              (bids.foldl (fun s b => opDeleteBlock noFaults b s)
                (emit (opUpdatePage noFaults pid f.title (some (some ppid)) s).2
                  (Call.listChildren pid)))).2) := by
          rw [← ha1]
        rw [ha] at hd2
        refine ⟨⟨pid, "updated"⟩, _, hd2, hp, ?_, ?_, ?_⟩
        · exact pageLive_exists (opAppendChildren_live_mono noFaults pid
            (buildChildren f).length _ pid hlive3)
        · intro x hx
          refine opAppendChildren_exists_mono noFaults pid (buildChildren f).length _ x ?_
          rw [foldlDelete_exists]
          exact opUpdatePage_exists_mono noFaults pid f.title (some (some ppid)) s x hx
        · intro x hx
          refine opAppendChildren_live_mono noFaults pid (buildChildren f).length _ x ?_
          rw [foldlDelete_live]
          exact opUpdatePage_live_mono noFaults pid f.title (some (some ppid)) s x hx
      · have hlive2 : pageLive s.world pid = false := by
          cases hb : pageLive s.world pid
          · rfl
          · exact absurd hb hlive
        have hu := opUpdatePage_noFaults_dead pid f.title (some (some ppid)) s hlive2
        have hd1 : syncFeatureUpdateOrCreate noFaults f ppid (some pid) s =
            syncFeatureCreate noFaults f ppid (emit s (Call.updatePage pid)) := by
          rw [syncFeatureUpdateOrCreate_some, if_pos hp, hu]
        obtain ⟨s2, h1, h2, h3, h4⟩ :=
          syncFeatureCreate_noFaults f ppid (emit s (Call.updatePage pid))
        refine ⟨⟨freshPageId s.world.nextPageId, "created"⟩, s2, ?_,
          freshPageId_ne_empty s.world.nextPageId, h2, h3, h4⟩
        rw [hd1]
        exact h1

theorem syncFeature_noFaults (f : Feature) (ppid : PageId) (m : Mapping) (s : St) :
    ∃ r s2, syncFeature noFaults f ppid m s = (some r, s2) ∧
      r.pageId ≠ "" ∧ pageExists s2.world r.pageId = true ∧
      (∀ x, pageExists s.world x = true → pageExists s2.world x = true) ∧
      (∀ x, pageLive s.world x = true → pageLive s2.world x = true) := by
  rcases he : alookup m.featurePageIds f.filePath with _ | pid
  · have hd : syncFeature noFaults f ppid m s =
        syncFeatureUpdateOrCreate noFaults f ppid none s := by
      rw [syncFeature_eq, he]
    obtain ⟨r, s2, h1, h2, h3, h4, h5⟩ := syncFeatureUpdateOrCreate_noFaults f ppid none s
    exact ⟨r, s2, by rw [hd]; exact h1, h2, h3, h4, h5⟩
  · by_cases hcond : pid ≠ "" ∧ alookup m.contentHashes f.filePath = some f.hash
    · have hd0 : syncFeature noFaults f ppid m s =
          (if pid ≠ "" ∧ alookup m.contentHashes f.filePath = some f.hash then
            match opRetrieve noFaults pid s with
            | (true, s1) => (some ⟨pid, "unchanged"⟩, s1)
            | (false, s1) => syncFeatureUpdateOrCreate noFaults f ppid (some pid) s1
          else syncFeatureUpdateOrCreate noFaults f ppid (some pid) s) := by
        rw [syncFeature_eq, he]
      rw [if_pos hcond, opRetrieve_noFaults] at hd0
      cases hex : pageExists s.world pid with
      | true =>
        rw [hex] at hd0
        refine ⟨⟨pid, "unchanged"⟩, emit s (Call.retrieve pid), hd0, hcond.1, hex, ?_, ?_⟩
        · intro x hx; exact hx
        · intro x hx; exact hx
      | false =>
        rw [hex] at hd0
        obtain ⟨r, s2, h1, h2, h3, h4, h5⟩ :=
          syncFeatureUpdateOrCreate_noFaults f ppid (some pid) (emit s (Call.retrieve pid))
        exact ⟨r, s2, by rw [hd0]; exact h1, h2, h3, h4, h5⟩
    · have hd0 : syncFeature noFaults f ppid m s =
          (if pid ≠ "" ∧ alookup m.contentHashes f.filePath = some f.hash then
            match opRetrieve noFaults pid s with
            | (true, s1) => (some ⟨pid, "unchanged"⟩, s1)
            | (false, s1) => syncFeatureUpdateOrCreate noFaults f ppid (some pid) s1
          else syncFeatureUpdateOrCreate noFaults f ppid (some pid) s) := by
        rw [syncFeature_eq, he]
      rw [if_neg hcond] at hd0
      obtain ⟨r, s2, h1, h2, h3, h4, h5⟩ := syncFeatureUpdateOrCreate_noFaults f ppid (some pid) s
      exact ⟨r, s2, by rw [hd0]; exact h1, h2, h3, h4, h5⟩

/-! ## Fault-free behaviour of the feature loop -/

/-- A fault-free feature loop never aborts, only grows the set of pages, and
leaves every scanned record with a non-empty mapped id pointing at an
existing page and its current hash stored; keys outside the scan are
untouched, and every table entry is either for a scanned key or was already
there. -/
theorem runFeatures_noFaults (ppid : PageId) :
    ∀ (fs : List Feature) (m : Mapping) (c u n : Nat) (acts : List (String × String)) (s : St),
      (fs.map (fun f => f.filePath)).Nodup →
      (runFeatures noFaults ppid fs m c u n acts s).ok = true ∧
      (∀ x, pageExists s.world x = true →
        pageExists (runFeatures noFaults ppid fs m c u n acts s).st.world x = true) ∧
      (∀ x, pageLive s.world x = true →
        pageLive (runFeatures noFaults ppid fs m c u n acts s).st.world x = true) ∧
      (∀ f ∈ fs, ∃ pid,
        alookup (runFeatures noFaults ppid fs m c u n acts s).m.featurePageIds f.filePath =
          some pid ∧ pid ≠ "" ∧
        pageExists (runFeatures noFaults ppid fs m c u n acts s).st.world pid = true ∧
        alookup (runFeatures noFaults ppid fs m c u n acts s).m.contentHashes f.filePath =
          some f.hash) ∧
      (∀ k, k ∉ fs.map (fun f => f.filePath) →
        alookup (runFeatures noFaults ppid fs m c u n acts s).m.featurePageIds k =
          alookup m.featurePageIds k ∧
        alookup (runFeatures noFaults ppid fs m c u n acts s).m.contentHashes k =
          alookup m.contentHashes k) ∧
      (∀ e ∈ (runFeatures noFaults ppid fs m c u n acts s).m.featurePageIds,
        e.1 ∈ fs.map (fun f => f.filePath) ∨ e ∈ m.featurePageIds) ∧
      (runFeatures noFaults ppid fs m c u n acts s).m.projectPageId = m.projectPageId := by
  intro fs
  induction fs with
  | nil =>
    intro m c u n acts s _
    refine ⟨rfl, fun x hx => hx, fun x hx => hx, ?_, ?_, ?_, rfl⟩
    · intro f hf; exact absurd hf (List.not_mem_nil _)
    · intro k _; exact ⟨rfl, rfl⟩
    · intro e he; exact Or.inr he
  | cons f fs ih =>
    intro m c u n acts s hnd
    rw [List.map_cons, List.nodup_cons] at hnd
    obtain ⟨hf_notin, hnd2⟩ := hnd
    obtain ⟨r, s2, hsf, hrne, hrex, hexm, hlivm⟩ := syncFeature_noFaults f ppid m s
    have hstep : runFeatures noFaults ppid (f :: fs) m c u n acts s =
        runFeatures noFaults ppid fs
          {m with featurePageIds := aset m.featurePageIds f.filePath r.pageId,
                  contentHashes := aset m.contentHashes f.filePath f.hash}
          (if r.action = "created" then ((c + 1, u, n) : Nat × Nat × Nat)
           else if r.action = "updated" then (c, u + 1, n) else (c, u, n + 1)).1
          (if r.action = "created" then ((c + 1, u, n) : Nat × Nat × Nat)
           else if r.action = "updated" then (c, u + 1, n) else (c, u, n + 1)).2.1
          (if r.action = "created" then ((c + 1, u, n) : Nat × Nat × Nat)
           else if r.action = "updated" then (c, u + 1, n) else (c, u, n + 1)).2.2
          (acts ++ [(f.filePath, r.action)]) s2 := by
      rw [runFeatures_cons, hsf]
    obtain ⟨ih_ok, ih_exm, ih_livm, ih_all, ih_pres, ih_ent, ih_proj⟩ := ih
      {m with featurePageIds := aset m.featurePageIds f.filePath r.pageId,
              contentHashes := aset m.contentHashes f.filePath f.hash}
      (if r.action = "created" then ((c + 1, u, n) : Nat × Nat × Nat)
       else if r.action = "updated" then (c, u + 1, n) else (c, u, n + 1)).1
      (if r.action = "created" then ((c + 1, u, n) : Nat × Nat × Nat)
       else if r.action = "updated" then (c, u + 1, n) else (c, u, n + 1)).2.1
      (if r.action = "created" then ((c + 1, u, n) : Nat × Nat × Nat)
       else if r.action = "updated" then (c, u + 1, n) else (c, u, n + 1)).2.2
      (acts ++ [(f.filePath, r.action)]) s2 hnd2
    rw [hstep]
    refine ⟨ih_ok, ?_, ?_, ?_, ?_, ?_, ?_⟩
    · intro x hx; exact ih_exm x (hexm x hx)
    · intro x hx; exact ih_livm x (hlivm x hx)
    · intro g hg
      rcases List.mem_cons.mp hg with hg | hg
      · subst hg
        obtain ⟨hp1, hp2⟩ := ih_pres g.filePath hf_notin
        refine ⟨r.pageId, ?_, hrne, ih_exm r.pageId hrex, ?_⟩
        · rw [hp1]
          exact alookup_aset_self m.featurePageIds g.filePath r.pageId
        · rw [hp2]
          exact alookup_aset_self m.contentHashes g.filePath g.hash
      · exact ih_all g hg
    · intro k hk
      rw [List.map_cons, List.mem_cons] at hk
      push_neg at hk
      obtain ⟨hk1, hk2⟩ := hk
      obtain ⟨hp1, hp2⟩ := ih_pres k hk2
      constructor
      · rw [hp1]
        exact alookup_aset_other m.featurePageIds f.filePath k r.pageId hk1
      · rw [hp2]
        exact alookup_aset_other m.contentHashes f.filePath k f.hash hk1
    · intro e he
      rcases ih_ent e he with h | h
      · exact Or.inl (List.mem_cons_of_mem _ h)
      · rcases mem_aset m.featurePageIds f.filePath r.pageId e h with h2 | h2
        · refine Or.inl ?_
          rw [List.map_cons, h2]
          exact List.mem_cons_self _ _
        · exact Or.inr h2
    · rw [ih_proj]

/-- When every record already has a matching fingerprint and a remembered id
whose page exists, a fault-free loop leaves the mapping and the world
untouched and resolves every record to `unchanged`. -/
theorem runFeatures_noFaults_unchanged (ppid : PageId) :
    ∀ (fs : List Feature) (m : Mapping) (c u n : Nat) (acts : List (String × String)) (s : St),
      (∀ f ∈ fs, ∃ pid, alookup m.featurePageIds f.filePath = some pid ∧ pid ≠ "" ∧
        pageExists s.world pid = true ∧ alookup m.contentHashes f.filePath = some f.hash) →
      (runFeatures noFaults ppid fs m c u n acts s).ok = true ∧
      (runFeatures noFaults ppid fs m c u n acts s).m = m ∧
      (runFeatures noFaults ppid fs m c u n acts s).created = c ∧
      (runFeatures noFaults ppid fs m c u n acts s).updated = u ∧
      (runFeatures noFaults ppid fs m c u n acts s).unchanged = n + fs.length ∧
      (runFeatures noFaults ppid fs m c u n acts s).actions =
        acts ++ fs.map (fun f => (f.filePath, "unchanged")) ∧
      (runFeatures noFaults ppid fs m c u n acts s).st.world = s.world := by
  intro fs
  induction fs with
  | nil =>
    intro m c u n acts s _
    exact ⟨rfl, rfl, rfl, rfl, rfl, (List.append_nil acts).symm, rfl⟩
  | cons f fs ih =>
    intro m c u n acts s hall
    obtain ⟨pid, hl1, hne, hex, hl2⟩ := hall f (List.mem_cons_self _ _)
    have hsf := syncFeature_fast_path noFaults f ppid m s pid hl1 hne hl2 hex rfl
    have haset1 : aset m.featurePageIds f.filePath pid = m.featurePageIds :=
      aset_of_lookup_eq m.featurePageIds f.filePath pid hl1
    have haset2 : aset m.contentHashes f.filePath f.hash = m.contentHashes :=
      aset_of_lookup_eq m.contentHashes f.filePath f.hash hl2
    have hm2 : ({m with featurePageIds := aset m.featurePageIds f.filePath pid,
                        contentHashes := aset m.contentHashes f.filePath f.hash} : Mapping) =
        m := by
      rw [haset1, haset2]
    have hstep : runFeatures noFaults ppid (f :: fs) m c u n acts s =
        runFeatures noFaults ppid fs
          {m with featurePageIds := aset m.featurePageIds f.filePath pid,
                  contentHashes := aset m.contentHashes f.filePath f.hash}
          c u (n + 1) (acts ++ [(f.filePath, "unchanged")]) (emit s (Call.retrieve pid)) := by
      rw [runFeatures_cons, hsf]
      rfl
    rw [hm2] at hstep
    obtain ⟨ih_ok, ih_m, ih_c, ih_u, ih_n, ih_acts, ih_w⟩ := ih m c u (n + 1)
      (acts ++ [(f.filePath, "unchanged")]) (emit s (Call.retrieve pid))
      (fun g hg => hall g (List.mem_cons_of_mem _ hg))
    rw [hstep]
    refine ⟨ih_ok, ih_m, ih_c, ih_u, ?_, ?_, ih_w⟩
    · rw [ih_n, List.length_cons]
      omega
    · rw [ih_acts, List.map_cons, List.append_assoc]
      rfl

/-! ## Fault-free behaviour of `syncProject` and the cleanup world -/

theorem alookup_ne_none_of_mem {α : Type} (l : List (String × α)) (kv : String × α)
    (h : kv ∈ l) : alookup l kv.1 ≠ none := by
  induction l with
  | nil => exact absurd h (List.not_mem_nil _)
  | cons hd tl ih =>
    rcases List.mem_cons.mp h with h | h
    · subst h
      rw [alookup_cons, if_pos rfl]
      exact Option.noConfusion
    · by_cases hk : hd.1 = kv.1
      · rw [alookup_cons, if_pos hk]
        exact Option.noConfusion
      · rw [alookup_cons, if_neg hk]
        exact ih h

theorem alookup_eq_of_mem_nodup {α : Type} (l : List (String × α)) (kv : String × α)
    (hnd : (l.map (fun e => e.1)).Nodup) (h : kv ∈ l) : alookup l kv.1 = some kv.2 := by
  induction l with
  | nil => exact absurd h (List.not_mem_nil _)
  | cons hd tl ih =>
    rw [List.map_cons, List.nodup_cons] at hnd
    obtain ⟨hnotin, hnd2⟩ := hnd
    rcases List.mem_cons.mp h with h | h
    · subst h
      rw [alookup_cons, if_pos rfl]
    · have hk : hd.1 ≠ kv.1 := by
        intro heq
        exact hnotin (heq ▸ List.mem_map_of_mem (fun e => e.1) h)
      rw [alookup_cons, if_neg hk]
      exact ih hnd2 h

theorem alookup_eraseKeys_notin {α : Type} (l : List (String × α)) (ks : List String)
    (k : String) (hk : ks.contains k = false) :
    alookup (eraseKeys l ks) k = alookup l k := by
  rw [eraseKeys_eq_filter]
  exact alookup_filter_keep l (fun x => !ks.contains x) k
    (by show (!ks.contains k) = true; rw [hk]; rfl)

theorem cleanupGo_world_exists (flt : Flt) (cps : List String) :
    ∀ (entries : List (String × PageId)) (m : Mapping) (s : St) (a : Nat) (x : PageId),
      pageExists s.world x = true →
      pageExists (cleanupGo flt cps entries m s a).2.2.world x = true := by
  intro entries
  induction entries with
  | nil => intro m s a x h; exact h
  | cons e rest ih =>
    intro m s a x h
    obtain ⟨fp, pid⟩ := e
    have hstep : cleanupGo flt cps ((fp, pid) :: rest) m s a =
        if cps.contains fp = true then cleanupGo flt cps rest m s a
        else cleanupGo flt cps rest
          {m with featurePageIds := aerase m.featurePageIds fp,
                  contentHashes := aerase m.contentHashes fp}
          (opArchivePage flt pid s).2
          (if (opArchivePage flt pid s).1 = true then a + 1 else a) := rfl
    rw [hstep]
    by_cases hc : cps.contains fp = true
    · rw [if_pos hc]
      exact ih m s a x h
    · rw [if_neg hc]
      exact ih _ _ _ x (opArchivePage_world_exists flt pid s x h)

/-- The cleanup sweep only archives the remembered ids of stale entries: a
page aliased by no stale entry value keeps its live status. -/
theorem cleanupGo_world_live (flt : Flt) (cps : List String) :
    ∀ (entries : List (String × PageId)) (m : Mapping) (s : St) (a : Nat) (x : PageId),
      (∀ e ∈ entries, cps.contains e.1 = false → e.2 ≠ x) →
      pageLive s.world x = true →
      pageLive (cleanupGo flt cps entries m s a).2.2.world x = true := by
  intro entries
  induction entries with
  | nil => intro m s a x _ h; exact h
  | cons e rest ih =>
    intro m s a x hnp h
    obtain ⟨fp, pid⟩ := e
    have hstep : cleanupGo flt cps ((fp, pid) :: rest) m s a =
        if cps.contains fp = true then cleanupGo flt cps rest m s a
        else cleanupGo flt cps rest
          {m with featurePageIds := aerase m.featurePageIds fp,
                  contentHashes := aerase m.contentHashes fp}
          (opArchivePage flt pid s).2
          (if (opArchivePage flt pid s).1 = true then a + 1 else a) := rfl
    rw [hstep]
    by_cases hc : cps.contains fp = true
    · rw [if_pos hc]
      exact ih m s a x (fun e he hf => hnp e (List.mem_cons_of_mem _ he) hf) h
    · rw [if_neg hc]
      have hc2 : cps.contains fp = false := by
        cases hb : cps.contains fp
        · rfl
        · exact absurd hb hc
      have hpx : pid ≠ x := hnp (fp, pid) (List.mem_cons_self _ _) hc2
      refine ih _ _ _ x (fun e he hf => hnp e (List.mem_cons_of_mem _ he) hf) ?_
      rw [opArchivePage_live_other flt pid s x (fun hh => hpx hh.symm)]
      exact h

theorem syncProjectStep1_none (flt : Flt) (m : Mapping) (s : St)
    (hm : m.projectPageId = none) : syncProjectStep1 flt m s = (none, s) := by
  have h1 : syncProjectStep1 flt m s =
      (match m.projectPageId with
       | some p =>
         if p ≠ "" then
           match opRetrieve flt p s with
           | (true, s1) => (some p, s1)
           | (false, s1) => (none, s1)
         else (some p, s)
       | none => (none, s)) := rfl
  rw [hm] at h1
  exact h1

theorem syncProjectStep1_some_empty (flt : Flt) (m : Mapping) (s : St)
    (hm : m.projectPageId = some "") : syncProjectStep1 flt m s = (some "", s) := by
  have h1 : syncProjectStep1 flt m s =
      (match m.projectPageId with
       | some p =>
         if p ≠ "" then
           match opRetrieve flt p s with
           | (true, s1) => (some p, s1)
           | (false, s1) => (none, s1)
         else (some p, s)
       | none => (none, s)) := rfl
  rw [hm] at h1
  have h2 : syncProjectStep1 flt m s =
      (if ("" : PageId) ≠ "" then
        match opRetrieve flt "" s with
        | (true, s1) => (some "", s1)
        | (false, s1) => (none, s1)
      else (some "", s)) := h1
  rw [if_neg (fun h => h rfl)] at h2
  exact h2

theorem syncProjectStep1_probe (flt : Flt) (m : Mapping) (s : St) (p : PageId)
    (hm : m.projectPageId = some p) (hp : p ≠ "") :
    syncProjectStep1 flt m s =
      (match opRetrieve flt p s with
       | (true, s1) => (some p, s1)
       | (false, s1) => (none, s1)) := by
  have h1 : syncProjectStep1 flt m s =
      (match m.projectPageId with
       | some p =>
         if p ≠ "" then
           match opRetrieve flt p s with
           | (true, s1) => (some p, s1)
           | (false, s1) => (none, s1)
         else (some p, s)
       | none => (none, s)) := rfl
  rw [hm] at h1
  have h2 : syncProjectStep1 flt m s =
      (if p ≠ "" then
        match opRetrieve flt p s with
        | (true, s1) => (some p, s1)
        | (false, s1) => (none, s1)
      else (some p, s)) := h1
  rw [if_pos hp] at h2
  exact h2

theorem syncProjectStep1_noFaults_exists (m : Mapping) (s : St) (p : PageId)
    (hm : m.projectPageId = some p) (hp : p ≠ "") (hex : pageExists s.world p = true) :
    syncProjectStep1 noFaults m s = (some p, emit s (Call.retrieve p)) := by
  rw [syncProjectStep1_probe noFaults m s p hm hp, opRetrieve_noFaults, hex]

theorem syncProjectStep1_noFaults_missing (m : Mapping) (s : St) (p : PageId)
    (hm : m.projectPageId = some p) (hp : p ≠ "") (hex : pageExists s.world p = false) :
    syncProjectStep1 noFaults m s = (none, emit s (Call.retrieve p)) := by
  rw [syncProjectStep1_probe noFaults m s p hm hp, opRetrieve_noFaults, hex]

theorem syncProjectStep2_keep (flt : Flt) (pn : String) (p : PageId) (s' : St)
    (hp : p ≠ "") : syncProjectStep2 flt pn (some p, s') = (some p, s') := by
  have h1 : syncProjectStep2 flt pn (some p, s') =
      (if p ≠ "" then (some p, s') else findProjectPage flt pn s') := rfl
  rw [if_pos hp] at h1
  exact h1

theorem syncProjectStep2_empty (flt : Flt) (pn : String) (s' : St) :
    syncProjectStep2 flt pn (some "", s') = findProjectPage flt pn s' := by
  have h1 : syncProjectStep2 flt pn (some "", s') =
      (if ("" : PageId) ≠ "" then (some "", s') else findProjectPage flt pn s') := rfl
  rw [if_neg (fun h => h rfl)] at h1
  exact h1

theorem syncProjectStep2_search (flt : Flt) (pn : String) (s' : St) :
    syncProjectStep2 flt pn (none, s') = findProjectPage flt pn s' := rfl

/-- A fault-free name search either finds nothing or returns the id of a
live page in the Projects database; the world is untouched.  The sanity
hypotheses say that no page carries the empty id (so the found id is
truthy) and that page ids are unambiguous. -/
theorem findProjectPage_noFaults_spec (pn : String) (s : St)
    (hne : pageExists s.world "" = false)
    (hwnd : (s.world.pages.map (fun kv => kv.1)).Nodup) :
    ∃ q sA, findProjectPage noFaults pn s = (q, sA) ∧ sA.world = s.world ∧
      (q = none ∨ ∃ p, q = some p ∧ p ≠ "" ∧ pageLive s.world p = true ∧
        ∃ pg, getPage s.world p = some pg ∧ pg.db = projectsDb) := by
  have h1 : findProjectPage noFaults pn s =
      ((s.world.pages.find? (fun kv =>
          kv.2.db = projectsDb && kv.2.name = pn && !kv.2.archived)).map (fun kv => kv.1),
       emit s (Call.queryProjectsByName pn)) := rfl
  rcases hf : s.world.pages.find? (fun kv =>
      kv.2.db = projectsDb && kv.2.name = pn && !kv.2.archived) with _ | kv
  · refine ⟨none, emit s (Call.queryProjectsByName pn), ?_, rfl, Or.inl rfl⟩
    rw [h1, hf]
    rfl
  · have hmem := List.mem_of_find?_eq_some hf
    have hpred := List.find?_some hf
    simp only [Bool.and_eq_true, decide_eq_true_eq, Bool.not_eq_true'] at hpred
    obtain ⟨⟨hdb, _⟩, har⟩ := hpred
    have hget : getPage s.world kv.1 = some kv.2 :=
      alookup_eq_of_mem_nodup s.world.pages kv hwnd hmem
    have hplm : pageLive s.world kv.1 = !kv.2.archived := by
      unfold pageLive
      rw [hget]
    have hlive : pageLive s.world kv.1 = true := by
      rw [hplm, har]
      rfl
    have hkne : kv.1 ≠ "" := by
      intro h0
      have h2 : alookup s.world.pages kv.1 ≠ none :=
        alookup_ne_none_of_mem s.world.pages kv hmem
      rw [h0] at h2
      have h3 : pageExists s.world "" = true := by
        unfold pageExists getPage
        exact Option.isSome_iff_ne_none.mpr h2
      rw [h3] at hne
      exact Bool.noConfusion hne
    refine ⟨some kv.1, emit s (Call.queryProjectsByName pn), ?_, rfl,
      Or.inr ⟨kv.1, rfl, hkne, hlive, kv.2, hget, hdb⟩⟩
    rw [h1, hf]
    rfl

/-- A fault-free project create mints the next fresh id as a live page and
only grows the world. -/
theorem syncProjectCreate_noFaults (pn : String) (rm : Option String) (s : St) :
    ∃ s2, syncProjectCreate noFaults pn rm s =
        (some (freshPageId s.world.nextPageId, "created"), s2) ∧
      pageLive s2.world (freshPageId s.world.nextPageId) = true ∧
      (∀ x, pageExists s.world x = true → pageExists s2.world x = true) ∧
      (∀ x, pageLive s.world x = true → pageLive s2.world x = true) := by
  rcases rm with _ | r
  · refine ⟨(opCreatePage noFaults projectsDb pn none (0 + 2) s).2, rfl, ?_, ?_, ?_⟩
    · rw [opCreatePage_noFaults]
      simp [pageLive, getPage, alookup_aset_self]
    · exact fun x hx => opCreatePage_exists_mono noFaults projectsDb pn none _ s x hx
    · exact fun x hx => opCreatePage_live_mono noFaults projectsDb pn none _ s x hx
  · refine ⟨(opCreatePage noFaults projectsDb pn none ((if r ≠ "" then 1 else 0) + 2) s).2,
      rfl, ?_, ?_, ?_⟩
    · rw [opCreatePage_noFaults]
      simp [pageLive, getPage, alookup_aset_self]
    · exact fun x hx => opCreatePage_exists_mono noFaults projectsDb pn none _ s x hx
    · exact fun x hx => opCreatePage_live_mono noFaults projectsDb pn none _ s x hx

/-- Fault-free behaviour of `syncProject`: under the sanity hypotheses (a
remembered project id whose page exists is not archived; and either the
remembered id is usable, or no page carries the empty id and ids are
unambiguous), the project sync succeeds, returns a truthy id whose page is
live, only grows the set of pages, and the returned id comes from the
remembered id, a name search hit, or the fresh id minted by the create. -/
theorem syncProject_noFaults (pn : String) (rm : Option String) (m : Mapping) (s : St)
    (hproj : ∀ p, m.projectPageId = some p → pageExists s.world p = true →
      pageLive s.world p = true)
    (hsane : (∃ p, m.projectPageId = some p ∧ p ≠ "" ∧ pageLive s.world p = true) ∨
      (pageExists s.world "" = false ∧ (s.world.pages.map (fun kv => kv.1)).Nodup)) :
    ∃ p act s2, syncProject noFaults pn rm m s = (some (p, act), s2) ∧ p ≠ "" ∧
      pageLive s2.world p = true ∧
      (∀ x, pageExists s.world x = true → pageExists s2.world x = true) ∧
      (∀ x, pageLive s.world x = true → pageLive s2.world x = true) ∧
      (m.projectPageId = some p ∨
        (∃ pg, getPage s.world p = some pg ∧ pg.db = projectsDb) ∨
        p = freshPageId s.world.nextPageId) := by
  have H : ∃ q sA, syncProjectStep2 noFaults pn (syncProjectStep1 noFaults m s) = (q, sA) ∧
      sA.world = s.world ∧
      (q = none ∨ ∃ p, q = some p ∧ p ≠ "" ∧ pageLive s.world p = true ∧
        (m.projectPageId = some p ∨
          ∃ pg, getPage s.world p = some pg ∧ pg.db = projectsDb)) := by
    rcases hm : m.projectPageId with _ | p
    · rcases hsane with ⟨p', hp', _, _⟩ | ⟨hne, hwnd⟩
      · rw [hm] at hp'
        exact Option.noConfusion hp'
      · obtain ⟨q, sA, hfp, hw, hq⟩ := findProjectPage_noFaults_spec pn s hne hwnd
        refine ⟨q, sA, ?_, hw, ?_⟩
        · rw [syncProjectStep1_none noFaults m s hm, syncProjectStep2_search, hfp]
        · rcases hq with h | ⟨p, h1, h2, h3, h4⟩
          · exact Or.inl h
          · exact Or.inr ⟨p, h1, h2, h3, Or.inr h4⟩
    · by_cases hpe : p = ""
      · subst hpe
        rcases hsane with ⟨p', hp', hpne', _⟩ | ⟨hne, hwnd⟩
        · rw [hm] at hp'
          exact absurd (Option.some.inj hp').symm hpne'
        · obtain ⟨q, sA, hfp, hw, hq⟩ := findProjectPage_noFaults_spec pn s hne hwnd
          refine ⟨q, sA, ?_, hw, ?_⟩
          · rw [syncProjectStep1_some_empty noFaults m s hm, syncProjectStep2_empty, hfp]
          · rcases hq with h | ⟨p, h1, h2, h3, h4⟩
            · exact Or.inl h
            · exact Or.inr ⟨p, h1, h2, h3, Or.inr h4⟩
      · by_cases hex : pageExists s.world p = true
        · refine ⟨some p, emit s (Call.retrieve p), ?_, rfl, ?_⟩
          · rw [syncProjectStep1_noFaults_exists m s p hm hpe hex,
              syncProjectStep2_keep noFaults pn p _ hpe]
          · exact Or.inr ⟨p, rfl, hpe, hproj p hm hex, Or.inl rfl⟩
        · have hex2 : pageExists s.world p = false := by
            cases hb : pageExists s.world p
            · rfl
            · exact absurd hb hex
          rcases hsane with ⟨p', hp', _, hlive'⟩ | ⟨hne, hwnd⟩
          · rw [hm] at hp'
            have hpp : p = p' := Option.some.inj hp'
            rw [← hpp] at hlive'
            rw [pageLive_exists hlive'] at hex2
            exact Bool.noConfusion hex2
          · obtain ⟨q, sA, hfp, hw, hq⟩ :=
              findProjectPage_noFaults_spec pn (emit s (Call.retrieve p)) hne hwnd
            refine ⟨q, sA, ?_, hw, ?_⟩
            · rw [syncProjectStep1_noFaults_missing m s p hm hpe hex2,
                syncProjectStep2_search, hfp]
            · rcases hq with h | ⟨p', h1, h2, h3, h4⟩
              · exact Or.inl h
              · exact Or.inr ⟨p', h1, h2, h3, Or.inr h4⟩
  obtain ⟨q, sA, hstep, hwA, hq⟩ := H
  have hd : syncProject noFaults pn rm m s =
      (match syncProjectStep2 noFaults pn (syncProjectStep1 noFaults m s) with
       | (some p, s1) =>
         if p ≠ "" then
           match opUpdatePage noFaults p pn none s1 with
           | (true, s2) => (some (p, "updated"), s2)
           | (false, s2) => (none, s2)
         else syncProjectCreate noFaults pn rm s1
       | (none, s1) => syncProjectCreate noFaults pn rm s1) := rfl
  rw [hstep] at hd
  rcases hq with hq | ⟨p, hqp, hpne, hlive, hsrc⟩
  · subst hq
    have hd2 : syncProject noFaults pn rm m s = syncProjectCreate noFaults pn rm sA := hd
    obtain ⟨s2, hc, hcl, hce, hclv⟩ := syncProjectCreate_noFaults pn rm sA
    rw [hwA] at hc hcl hce hclv
    exact ⟨freshPageId s.world.nextPageId, "created", s2, by rw [hd2]; exact hc,
      freshPageId_ne_empty _, hcl, hce, hclv, Or.inr (Or.inr rfl)⟩
  · subst hqp
    have hd2 : syncProject noFaults pn rm m s =
        (if p ≠ "" then
          match opUpdatePage noFaults p pn none sA with
          | (true, s2) => (some (p, "updated"), s2)
          | (false, s2) => (none, s2)
        else syncProjectCreate noFaults pn rm sA) := hd
    rw [if_pos hpne] at hd2
    have hliveA : pageLive sA.world p = true := by
      rw [hwA]
      exact hlive
    obtain ⟨hu1, hu2⟩ := opUpdatePage_noFaults_live p pn none sA hliveA
    have hup : opUpdatePage noFaults p pn none sA =
        (true, (opUpdatePage noFaults p pn none sA).2) := by
      rw [← hu1]
    rw [hup] at hd2
    have hd3 : syncProject noFaults pn rm m s =
        (some (p, "updated"), (opUpdatePage noFaults p pn none sA).2) := hd2
    refine ⟨p, "updated", (opUpdatePage noFaults p pn none sA).2, hd3, hpne, hu2, ?_, ?_, ?_⟩
    · intro x hx
      refine opUpdatePage_exists_mono noFaults p pn none sA x ?_
      rw [hwA]
      exact hx
    · intro x hx
      refine opUpdatePage_live_mono noFaults p pn none sA x ?_
      rw [hwA]
      exact hx
    · rcases hsrc with h | h
      · exact Or.inl h
      · exact Or.inr (Or.inl h)

/-! ## The two-run idempotence argument: claim C1 -/

/-- First fault-free run: the mapping file is written, the stored project id
is truthy and its page is live, and every scanned record ends with a truthy
mapped id whose page exists and with its hash stored. -/
theorem runSync_noFaults_first (pn : String) (rm : Option String) (ts : String)
    (features : List Feature) (m0 : Mapping) (w0 : World)
    (hnd : (features.map (fun f => f.filePath)).Nodup)
    (hne : pageExists w0 "" = false)
    (hwnd : (w0.pages.map (fun kv => kv.1)).Nodup)
    (hproj : ∀ p, m0.projectPageId = some p → pageExists w0 p = true → pageLive w0 p = true)
    (hstale : ∀ e ∈ m0.featurePageIds, e.1 ∉ features.map (fun f => f.filePath) →
      m0.projectPageId ≠ some e.2 ∧
      (∀ pg, getPage w0 e.2 = some pg → pg.db ≠ projectsDb) ∧
      e.2 ≠ freshPageId w0.nextPageId) :
    ∃ m1 w1 ppid,
      (runSync noFaults pn rm ts features m0 ⟨w0, []⟩).saved = some m1 ∧
      (runSync noFaults pn rm ts features m0 ⟨w0, []⟩).st.world = w1 ∧
      m1.projectPageId = some ppid ∧ ppid ≠ "" ∧ pageLive w1 ppid = true ∧
      (∀ f ∈ features, ∃ pid, alookup m1.featurePageIds f.filePath = some pid ∧ pid ≠ "" ∧
        pageExists w1 pid = true ∧ alookup m1.contentHashes f.filePath = some f.hash) := by
  obtain ⟨ppid, act, s1, hsp, hppne, hpplive, hspex, hspliv, hsrc⟩ :=
    syncProject_noFaults pn rm m0 ⟨w0, []⟩ hproj (Or.inr ⟨hne, hwnd⟩)
  obtain ⟨hok1, hexm1, hlivm1, hall1, hpres1, hent1, hprojL⟩ :=
    runFeatures_noFaults ppid features {m0 with projectPageId := some ppid} 0 0 0 [] s1 hnd
  obtain ⟨L, hLdef⟩ : ∃ L,
      runFeatures noFaults ppid features {m0 with projectPageId := some ppid} 0 0 0 [] s1 =
        L := ⟨_, rfl⟩
  rw [hLdef] at hok1 hexm1 hlivm1 hall1 hpres1 hent1 hprojL
  obtain ⟨hct, hcf, hcc, hcp, hcl⟩ :=
    cleanupGo_spec noFaults (features.map (fun f => f.filePath)) L.m.featurePageIds L.m L.st 0
  have hCex := cleanupGo_world_exists noFaults (features.map (fun f => f.filePath))
    L.m.featurePageIds L.m L.st 0
  have hCliv := cleanupGo_world_live noFaults (features.map (fun f => f.filePath))
    L.m.featurePageIds L.m L.st 0
  obtain ⟨C, hCdef⟩ : ∃ C,
      cleanupGo noFaults (features.map (fun f => f.filePath)) L.m.featurePageIds L.m L.st 0 =
        C := ⟨_, rfl⟩
  rw [hCdef] at hct hcf hcc hcp hcl hCex hCliv
  have hrs := runSync_proj_some noFaults pn rm ts features m0 ⟨w0, []⟩ s1 ppid act hsp
  rw [hLdef, if_pos hok1] at hrs
  have hcd : cleanupDeletedFeatures noFaults features L.m L.st =
      cleanupGo noFaults (features.map (fun f => f.filePath)) L.m.featurePageIds L.m L.st 0 :=
    rfl
  rw [hcd, hCdef] at hrs
  have hstaleC : ∀ e ∈ L.m.featurePageIds,
      (features.map (fun f => f.filePath)).contains e.1 = false → e.2 ≠ ppid := by
    intro e he hcont
    rcases hent1 e he with hin | hin
    · have hct2 : (features.map (fun f => f.filePath)).contains e.1 = true :=
        contains_iff_memS.mpr hin
      rw [hct2] at hcont
      exact Bool.noConfusion hcont
    · have hin' : e ∈ m0.featurePageIds := hin
      have hnotmem : e.1 ∉ features.map (fun f => f.filePath) := by
        intro hmm
        have hct2 : (features.map (fun f => f.filePath)).contains e.1 = true :=
          contains_iff_memS.mpr hmm
        rw [hct2] at hcont
        exact Bool.noConfusion hcont
      obtain ⟨hs1, hs2, hs3⟩ := hstale e hin' hnotmem
      intro heq
      rcases hsrc with h | ⟨pg, hg, hdb⟩ | h
      · refine hs1 ?_
        rw [heq]
        exact h
      · refine hs2 pg ?_ hdb
        rw [heq]
        exact hg
      · refine hs3 ?_
        rw [heq]
        exact h
  have hkstale : ∀ f ∈ features,
      (((L.m.featurePageIds.filter
          (fun e => !(features.map (fun f => f.filePath)).contains e.1)).map
        (fun e => e.1)).contains f.filePath) = false := by
    intro f hf
    cases hb : ((L.m.featurePageIds.filter
        (fun e => !(features.map (fun f => f.filePath)).contains e.1)).map
      (fun e => e.1)).contains f.filePath
    · rfl
    · exfalso
      have hmm := contains_iff_memS.mp hb
      obtain ⟨e, hef, he1⟩ := List.mem_map.mp hmm
      obtain ⟨_, hpredE⟩ := List.mem_filter.mp hef
      have hcfalse : (features.map (fun f => f.filePath)).contains e.1 = false := by
        cases hb2 : (features.map (fun f => f.filePath)).contains e.1
        · rfl
        · rw [hb2] at hpredE
          exact Bool.noConfusion hpredE
      rw [he1] at hcfalse
      have hctrue : (features.map (fun f => f.filePath)).contains f.filePath = true :=
        contains_iff_memS.mpr (List.mem_map_of_mem (fun f => f.filePath) hf)
      rw [hctrue] at hcfalse
      exact Bool.noConfusion hcfalse
  refine ⟨{C.2.1 with lastSync := some ts}, C.2.2.world, ppid,
    congrArg RunResult.saved hrs, congrArg (fun r => r.st.world) hrs, ?_, hppne, ?_, ?_⟩
  · show C.2.1.projectPageId = some ppid
    rw [hcp, hprojL]
  · exact hCliv ppid hstaleC (hlivm1 ppid hpplive)
  · intro f hf
    obtain ⟨pid, hl1, hpne', hex', hl2⟩ := hall1 f hf
    refine ⟨pid, ?_, hpne', hCex pid hex', ?_⟩
    · show alookup C.2.1.featurePageIds f.filePath = some pid
      rw [hcf, alookup_eraseKeys_notin _ _ _ (hkstale f hf)]
      exact hl1
    · show alookup C.2.1.contentHashes f.filePath = some f.hash
      rw [hcc, alookup_eraseKeys_notin _ _ _ (hkstale f hf)]
      exact hl2

/-- Second fault-free run from a state the first run left behind: nothing is
created or updated, every record resolves to `unchanged`, and the mapping is
saved again. -/
theorem runSync_noFaults_stable (pn : String) (rm : Option String) (ts : String)
    (features : List Feature) (m : Mapping) (w : World)
    (hm : ∃ ppid, m.projectPageId = some ppid ∧ ppid ≠ "" ∧ pageLive w ppid = true)
    (hall : ∀ f ∈ features, ∃ pid, alookup m.featurePageIds f.filePath = some pid ∧
      pid ≠ "" ∧ pageExists w pid = true ∧ alookup m.contentHashes f.filePath = some f.hash) :
    (runSync noFaults pn rm ts features m ⟨w, []⟩).saved.isSome = true ∧
    (runSync noFaults pn rm ts features m ⟨w, []⟩).created = 0 ∧
    (runSync noFaults pn rm ts features m ⟨w, []⟩).updated = 0 ∧
    (runSync noFaults pn rm ts features m ⟨w, []⟩).unchanged = features.length ∧
    (runSync noFaults pn rm ts features m ⟨w, []⟩).actions =
      features.map (fun f => (f.filePath, "unchanged")) := by
  obtain ⟨ppid, hmp, hpne, hlive⟩ := hm
  have hproj' : ∀ p, m.projectPageId = some p → pageExists (⟨w, []⟩ : St).world p = true →
      pageLive (⟨w, []⟩ : St).world p = true := by
    intro p hp _
    rw [hmp] at hp
    have hpp : ppid = p := Option.some.inj hp
    rw [← hpp]
    exact hlive
  obtain ⟨p2, act2, s1, hsp, hp2ne, hp2live, hex2, hliv2, hsrc2⟩ :=
    syncProject_noFaults pn rm m ⟨w, []⟩ hproj' (Or.inl ⟨ppid, hmp, hpne, hlive⟩)
  have hall2 : ∀ f ∈ features, ∃ pid,
      alookup ({m with projectPageId := some p2} : Mapping).featurePageIds f.filePath =
        some pid ∧ pid ≠ "" ∧ pageExists s1.world pid = true ∧
      alookup ({m with projectPageId := some p2} : Mapping).contentHashes f.filePath =
        some f.hash := by
    intro f hf
    obtain ⟨pid, h1, h2, h3, h4⟩ := hall f hf
    exact ⟨pid, h1, h2, hex2 pid h3, h4⟩
  obtain ⟨hok, hmEq, hc, hu, hn, hacts, hw⟩ :=
    runFeatures_noFaults_unchanged p2 features {m with projectPageId := some p2} 0 0 0 [] s1
      hall2
  have hn2 : (runFeatures noFaults p2 features {m with projectPageId := some p2}
      0 0 0 [] s1).unchanged = features.length := by
    rw [hn]
    exact Nat.zero_add _
  have hacts2 : (runFeatures noFaults p2 features {m with projectPageId := some p2}
      0 0 0 [] s1).actions = features.map (fun f => (f.filePath, "unchanged")) := by
    rw [hacts]
    exact List.nil_append _
  have hrs := runSync_proj_some noFaults pn rm ts features m ⟨w, []⟩ s1 p2 act2 hsp
  rw [if_pos hok] at hrs
  refine ⟨?_, ?_, ?_, ?_, ?_⟩
  · rw [hrs]
    rfl
  · rw [hrs]
    exact hc
  · rw [hrs]
    exact hu
  · rw [hrs]
    exact hn2
  · rw [hrs]
    exact hacts2

/-- C1: idempotence of the full sync.  Starting from a sane prior state (no
page keyed by the empty id, unambiguous page ids, a remembered project id
that is live if its page exists, distinct scanned file paths, and stale
mapped feature ids that do not alias the project page or the next fresh id),
a fault-free run writes the mapping file, and running the full sync again
with the same records produces zero creates and zero updates: the second run
saves again and every record resolves to `unchanged`, because its stored
fingerprint equals the recomputed one and its remote page still exists. -/
theorem sync_second_run_all_unchanged
    (pn : String) (rm : Option String) (ts1 ts2 : String)
    (features : List Feature) (m0 : Mapping) (w0 : World)
    (hnd : (features.map (fun f => f.filePath)).Nodup)
    (hne : pageExists w0 "" = false)
    (hwnd : (w0.pages.map (fun kv => kv.1)).Nodup)
    (hproj : ∀ p, m0.projectPageId = some p → pageExists w0 p = true → pageLive w0 p = true)
    (hstale : ∀ e ∈ m0.featurePageIds, e.1 ∉ features.map (fun f => f.filePath) →
      m0.projectPageId ≠ some e.2 ∧
      (∀ pg, getPage w0 e.2 = some pg → pg.db ≠ projectsDb) ∧
      e.2 ≠ freshPageId w0.nextPageId) :
    ∃ m1, (runSync noFaults pn rm ts1 features m0 ⟨w0, []⟩).saved = some m1 ∧
      (runSync noFaults pn rm ts2 features m1
        ⟨(runSync noFaults pn rm ts1 features m0 ⟨w0, []⟩).st.world, []⟩).saved.isSome =
        true ∧
      (runSync noFaults pn rm ts2 features m1
        ⟨(runSync noFaults pn rm ts1 features m0 ⟨w0, []⟩).st.world, []⟩).created = 0 ∧
      (runSync noFaults pn rm ts2 features m1
        ⟨(runSync noFaults pn rm ts1 features m0 ⟨w0, []⟩).st.world, []⟩).updated = 0 ∧
      (runSync noFaults pn rm ts2 features m1
        ⟨(runSync noFaults pn rm ts1 features m0 ⟨w0, []⟩).st.world, []⟩).unchanged =
        features.length ∧
      (runSync noFaults pn rm ts2 features m1
        ⟨(runSync noFaults pn rm ts1 features m0 ⟨w0, []⟩).st.world, []⟩).actions =
        features.map (fun f => (f.filePath, "unchanged")) := by
  obtain ⟨m1, w1, ppid, hsaved, hworld, hmp, hpne, hlive, hall⟩ :=
    runSync_noFaults_first pn rm ts1 features m0 w0 hnd hne hwnd hproj hstale
  obtain ⟨h1, h2, h3, h4, h5⟩ :=
    runSync_noFaults_stable pn rm ts2 features m1 w1 ⟨ppid, hmp, hpne, hlive⟩ hall
  rw [hworld]
  exact ⟨m1, hsaved, h1, h2, h3, h4, h5⟩

theorem sync_second_run_all_unchanged_witness :
    ∃ m1, (runSync noFaults "Proj" none "t1" [sampleFeature "T" "a.md" "h1"] emptyMapping
        ⟨⟨[], 0, 0⟩, []⟩).saved = some m1 ∧
      (runSync noFaults "Proj" none "t2" [sampleFeature "T" "a.md" "h1"] m1
        ⟨(runSync noFaults "Proj" none "t1" [sampleFeature "T" "a.md" "h1"] emptyMapping
          ⟨⟨[], 0, 0⟩, []⟩).st.world, []⟩).saved.isSome = true ∧
      (runSync noFaults "Proj" none "t2" [sampleFeature "T" "a.md" "h1"] m1
        ⟨(runSync noFaults "Proj" none "t1" [sampleFeature "T" "a.md" "h1"] emptyMapping
          ⟨⟨[], 0, 0⟩, []⟩).st.world, []⟩).created = 0 ∧
      (runSync noFaults "Proj" none "t2" [sampleFeature "T" "a.md" "h1"] m1
        ⟨(runSync noFaults "Proj" none "t1" [sampleFeature "T" "a.md" "h1"] emptyMapping
          ⟨⟨[], 0, 0⟩, []⟩).st.world, []⟩).updated = 0 ∧
      (runSync noFaults "Proj" none "t2" [sampleFeature "T" "a.md" "h1"] m1
        ⟨(runSync noFaults "Proj" none "t1" [sampleFeature "T" "a.md" "h1"] emptyMapping
          ⟨⟨[], 0, 0⟩, []⟩).st.world, []⟩).unchanged =
        [sampleFeature "T" "a.md" "h1"].length ∧
      (runSync noFaults "Proj" none "t2" [sampleFeature "T" "a.md" "h1"] m1
        ⟨(runSync noFaults "Proj" none "t1" [sampleFeature "T" "a.md" "h1"] emptyMapping
          ⟨⟨[], 0, 0⟩, []⟩).st.world, []⟩).actions =
        [sampleFeature "T" "a.md" "h1"].map (fun f => (f.filePath, "unchanged")) :=
  sync_second_run_all_unchanged "Proj" none "t1" "t2" [sampleFeature "T" "a.md" "h1"]
    emptyMapping ⟨[], 0, 0⟩ (by decide) rfl (by decide)
    (fun p hp _ => absurd hp (fun h => Option.noConfusion h))
    (fun e he _ => absurd he (List.not_mem_nil e))

end NotionSync
